import Mathlib

/-!
Verification of the polybot2 Trade Authorization Pipeline.

This file is a shallow embedding of the code paths named by the claims:
`src/storage/limits.ts`, `src/backend/validateAgentOutput.ts`,
`src/backend/buildTradeRequest.ts`, `src/discord/classifyMessageIntent.ts`
and `src/discord/DiscordMessageRouter.ts`.

Modelling conventions:
- JavaScript numbers that hold cent amounts are modelled as `Int`
  (every amount that flows through the pipeline is produced as an
  integer; `Number.isInteger` is identically true in this model).
- Epoch-millisecond clocks are `Nat`.  `new Date(ms).toISOString().slice(0,10)`
  is in bijection with the UTC day number `ms / 86400000`, so the
  string day key of `limits.ts` is modelled by that `Nat`.
- External I/O (the Gemini intent parser, market lookups, the Gamma API,
  the trader gateway, `crypto.randomUUID`, `Date.now`) is injected as
  data/function parameters, mirroring how the TypeScript receives them
  as dependencies or awaits them.
- JavaScript `Map`s keyed by strings are association lists; `Map.get`,
  `Map.set`, `Map.delete` are `mapGet`, `mapSet`, `mapErase`.
-/

namespace Polybot

/-! ### Basic data model (`src/types.ts`) -/

/-- Market execution eligibility state (`'active' | 'closed' | 'paused'`). -/
inductive MarketStatus
| active
| closed
| paused
deriving DecidableEq, Repr

/-- Binary outcome (`'YES' | 'NO'`). -/
inductive Outcome
| yes
| no
deriving DecidableEq, Repr

/-- Trade action (`'BUY' | 'SELL'`). -/
inductive TradeAction
| buy
| sell
deriving DecidableEq, Repr

/-- The fields of `Market` that the modelled code paths read
(`id`, `question`, `status`); prices/volume/slugs are presentation data
not consumed by the trade authorization pipeline. -/
structure MarketInfo where
  id : String
  question : String
  status : MarketStatus
deriving DecidableEq, Repr

/-- `UserIdentity`: bound Discord and Polymarket identifiers. -/
structure UserIdentity where
  discordUserId : String
  polymarketAccountId : String
deriving DecidableEq, Repr

/-! ### Spend ledger (`src/storage/limits.ts`, in-memory fallback)

`REDIS_URL` unset selects the in-memory branch of every function; the
Redis Lua script of `trySpend` implements the same check-then-increment
semantics, so the in-memory ledger is the embedded backing store.
The ledger is a total function `user → dayKey → Int`; a missing map
entry is identified with the value `0`, which is exactly how the
code observes it (`userMap.get(dayKey) ?? 0`). -/

/-- `DAILY_LIMIT_CENTS = 500`. -/
def DAILY_LIMIT_CENTS : Int := 500

/-- `OWNER_DISCORD_ID` fallback value (env var absent in this model). -/
def OWNER_DISCORD_ID : String := "1161631744768884746"

/-- `isOwnerExempt`. -/
def isOwnerExempt (discordUserId : String) : Bool :=
  discordUserId == OWNER_DISCORD_ID

/-- One UTC day in milliseconds. -/
def MS_PER_DAY : Nat := 86400000

/-- `utcDateKey()`: the UTC calendar date of `nowMs`, as a day number. -/
def dayKey (nowMs : Nat) : Nat := nowMs / MS_PER_DAY

/-- The in-memory spend ledger: cents spent per user per UTC day. -/
def Ledger : Type := String → Nat → Int

/-- The empty ledger (fresh `Map`). -/
def Ledger.empty : Ledger := fun _ _ => 0

/-- `evictStaleEntries`: delete every bucket of `u` other than today and
yesterday.  `yesterday` is computed from `Date.now() - 86_400_000` as in
the source; with truncated `Nat` subtraction this is `dayKey now - 1`
(and `0` stays `0` before the first full day of the epoch, exactly as
the date arithmetic behaves). -/
def evictStaleEntries (u : String) (nowMs : Nat) (L : Ledger) : Ledger :=
  fun v d =>
    if v = u ∧ d ≠ dayKey nowMs ∧ d ≠ dayKey (nowMs - MS_PER_DAY) then 0
    else L v d

/-- `memGetSpent`: evicts the user's stale buckets, then reads today's
bucket.  (When the user has no map at all the code skips the eviction;
on the total-function representation evicting an all-zero user is the
identity, so the uniform eviction is extensionally the same.) -/
def memGetSpent (u : String) (nowMs : Nat) (L : Ledger) : Int × Ledger :=
  let L' := evictStaleEntries u nowMs L
  (L' u (dayKey nowMs), L')

/-- `memRecordSpend`: adds `amountCents` to the user's bucket for today. -/
def memRecordSpend (u : String) (amountCents : Int) (nowMs : Nat) (L : Ledger) : Ledger :=
  fun v d =>
    if v = u ∧ d = dayKey nowMs then L u (dayKey nowMs) + amountCents
    else L v d

/-- `getSpentToday` (in-memory branch). -/
def getSpentToday (u : String) (nowMs : Nat) (L : Ledger) : Int × Ledger :=
  memGetSpent u nowMs L

/-- `getRemainingToday = max(0, DAILY_LIMIT_CENTS - spentToday)`. -/
def getRemainingToday (u : String) (nowMs : Nat) (L : Ledger) : Int × Ledger :=
  let r := getSpentToday u nowMs L
  (max 0 (DAILY_LIMIT_CENTS - r.1), r.2)

/-- `canSpend`: `spentToday + amountCents <= DAILY_LIMIT_CENTS`. -/
def canSpend (u : String) (amountCents : Int) (nowMs : Nat) (L : Ledger) : Bool × Ledger :=
  let r := getSpentToday u nowMs L
  (decide (r.1 + amountCents ≤ DAILY_LIMIT_CENTS), r.2)

/-- `recordSpend` (in-memory branch). -/
def recordSpend (u : String) (amountCents : Int) (nowMs : Nat) (L : Ledger) : Ledger :=
  memRecordSpend u amountCents nowMs L

/-- `trySpend` (in-memory branch): read-check, then record only when the
check passes.  The Redis branch runs the same comparison and increment
inside one Lua script. -/
def trySpend (u : String) (amountCents : Int) (nowMs : Nat) (L : Ledger) : Bool × Ledger :=
  let r := memGetSpent u nowMs L
  if r.1 + amountCents > DAILY_LIMIT_CENTS then (false, r.2)
  else (true, memRecordSpend u amountCents nowMs r.2)

/-- Run a sequence of `trySpend` calls for one user at one instant,
collecting each call's boolean result. -/
def trySpendFold (u : String) (nowMs : Nat) : List Int → Ledger → List Bool × Ledger
| [], L => ([], L)
| a :: rest, L =>
    let r := trySpend u a nowMs L
    let t := trySpendFold u nowMs rest r.2
    (r.1 :: t.1, t.2)

/-- Sum of the amounts whose paired `trySpend` call returned `true`. -/
def acceptedSum : List Int → List Bool → Int
| a :: as, true :: bs => a + acceptedSum as bs
| _ :: as, false :: bs => acceptedSum as bs
| _, _ => 0

/-! ### Untrusted agent output (`src/agent/intentParser.ts` shape) -/

/-- Payload of a `place_bet` intent after shape validation. -/
structure PlaceBet where
  userId : String
  marketId : String
  outcome : Outcome
  action : Option TradeAction
  amountCents : Int
  rawText : Option String
deriving DecidableEq, Repr

/-- The closed `AgentOutput` union produced by the shape-validated
intent parser. -/
inductive AgentOutput
| placeBet (pb : PlaceBet)
| getBalance (userId : String) (rawText : Option String)
| getTradeHistory (userId : String) (limit : Option Int)
| queryMarket (userId : String)
deriving DecidableEq, Repr

/-! ### Output validator (`src/backend/validateAgentOutput.ts`) -/

/-- `HOURLY_LIMIT_CENTS = 500`. -/
def HOURLY_LIMIT_CENTS : Int := 500

/-- The five validation error codes. -/
inductive ValidationErrorCode
| accountNotConnected
| invalidMarket
| marketNotActive
| invalidAmount
| limitExceeded
deriving DecidableEq, Repr

/-- `ValidationResult`: `{ ok: true }` or `{ ok: false, error: { code } }`. -/
inductive ValidationResult
| ok
| err (code : ValidationErrorCode)
deriving DecidableEq, Repr

/-- The `{id, status}` projection returned by the injected market lookup. -/
structure MarketProjection where
  id : String
  status : MarketStatus
deriving DecidableEq, Repr

/-- `ValidationContext`: injected, read-only validation inputs. -/
structure ValidationContext where
  polymarketAccountId : Option String
  remainingDailyLimitCents : Int
  spentThisHourCents : Int
  marketLookup : String → Option MarketProjection

/-- `validateAgentOutput`: the fixed-order, short-circuiting checks.
The source guards each block with `intent === 'place_bet'`, so every
non-`place_bet` output falls through to `{ ok: true }`.
`Number.isInteger(amountCents)` is identically true on `Int`. -/
def validateAgentOutput (agentOutput : AgentOutput) (context : ValidationContext) :
    ValidationResult :=
  match agentOutput with
  | .placeBet pb =>
    match context.polymarketAccountId with
    | none => .err .accountNotConnected
    | some _ =>
      match context.marketLookup pb.marketId with
      | none => .err .invalidMarket
      | some market =>
        if market.status ≠ .active then .err .marketNotActive
        else if pb.amountCents ≤ 0 then .err .invalidAmount
        else if pb.amountCents > context.remainingDailyLimitCents then .err .limitExceeded
        else if context.spentThisHourCents + pb.amountCents > HOURLY_LIMIT_CENTS then
          .err .limitExceeded
        else .ok
  | _ => .ok

/-! ### Request builder (`src/backend/buildTradeRequest.ts`) -/

/-- `IDEMPOTENCY_WINDOW_MS = 5 * 60 * 1000`. -/
def IDEMPOTENCY_WINDOW_MS : Nat := 5 * 60 * 1000

/-- String form of an outcome as it appears in the idempotency key. -/
def outcomeString : Outcome → String
| .yes => "YES"
| .no => "NO"

/-- The immutable `TradeRequest`. -/
structure TradeRequest where
  identity : UserIdentity
  market : MarketInfo
  outcome : Outcome
  action : TradeAction
  amountCents : Int
  idempotencyKey : String
  requestedAtMs : Nat
deriving DecidableEq, Repr

/-- `createDeterministicIdempotencyKey`: the `':'`-join of user id,
account id, market id, outcome, amount and `floor(nowMs / windowMs)`. -/
def createDeterministicIdempotencyKey (identity : UserIdentity) (marketId : String)
    (outcome : Outcome) (amountCents : Int) (nowMs windowMs : Nat) : String :=
  String.intercalate ":"
    [identity.discordUserId, identity.polymarketAccountId, marketId,
     outcomeString outcome, toString amountCents, Nat.repr (nowMs / windowMs)]

/-- `buildTradeRequest` on a `place_bet` intent.  (For any other intent
the source throws before constructing anything; the router only invokes
it on `place_bet`, which is the case embedded here.) -/
def buildTradeRequest (pb : PlaceBet) (identity : UserIdentity) (market : MarketInfo)
    (nowMs : Nat) : TradeRequest :=
  { identity := identity
    market := market
    outcome := pb.outcome
    action := pb.action.getD .buy
    amountCents := pb.amountCents
    idempotencyKey :=
      createDeterministicIdempotencyKey identity market.id pb.outcome pb.amountCents
        nowMs IDEMPOTENCY_WINDOW_MS
    requestedAtMs := nowMs }

/-- Decimal value of a digit character list (for the `Nat.repr`
round-trip used to separate idempotency keys of distinct buckets). -/
def decodeDecimal : List Char → Nat → Nat
| [], acc => acc
| c :: rest, acc => decodeDecimal rest (acc * 10 + (c.toNat - 48))

/-! ### Regex tests (`classifyMessageIntent.ts`, `DiscordMessageRouter.ts`)

The JavaScript code uses a handful of fixed regular expressions only as
boolean tests (plus two first-match captures).  Each is embedded as an
executable scanner over `List Char` with JavaScript semantics:
`\w = [A-Za-z0-9_]`, `\b` holds where word-ness changes, alternation and
optional parts are existential.  All tested strings are first trimmed
and lowercased; the sources either lowercase explicitly or use the `/i`
flag, which is equivalent on the lowered text for these ASCII patterns. -/

/-- JavaScript `\w`. -/
def isWordChar (c : Char) : Bool := c.isAlphanum || c == '_'

/-- JavaScript `\s` (ASCII fragment, which is all the sources feed it). -/
def isSpaceChar (c : Char) : Bool := c.isWhitespace

/-- `message.trim().toLowerCase()` (ASCII lowering, as all patterns are
ASCII). -/
def normChars (s : String) : List Char :=
  (((s.data.dropWhile isSpaceChar).reverse.dropWhile isSpaceChar).reverse).map Char.toLower

/-- Tokens of the word-sequence patterns used by the sources:
literal runs, `\s+`, `\s*` and `\w+`. -/
inductive PatTok
| lit (w : List Char)
| ws1
| ws0
| wordRun
deriving Repr

/-- `litTok "w"`: the literal token for `w`. -/
def litTok (w : String) : PatTok := .lit w.data

/-- Match a token sequence at the head of `l`, returning the rest.
`\s+`/`\s*`/`\w+` are taken maximally, which is complete here because
every following token starts with a character of a disjoint class. -/
def matchToks : List PatTok → List Char → Option (List Char)
| [], l => some l
| .lit w :: ps, l => if w.isPrefixOf l then matchToks ps (l.drop w.length) else none
| .ws1 :: ps, l =>
    match l with
    | [] => none
    | c :: rest => if isSpaceChar c then matchToks ps (rest.dropWhile isSpaceChar) else none
| .ws0 :: ps, l => matchToks ps (l.dropWhile isSpaceChar)
| .wordRun :: ps, l =>
    match l with
    | [] => none
    | c :: rest => if isWordChar c then matchToks ps (rest.dropWhile isWordChar) else none

/-- `\b` immediately after a match that ends in a word character. -/
def boundaryAfter : List Char → Bool
| [] => true
| c :: _ => !isWordChar c

/-- One alternative matches at this position (`endB`: the pattern has a
trailing `\b`). -/
def altMatchesAt (endB : Bool) (alt : List PatTok) (l : List Char) : Bool :=
  match matchToks alt l with
  | some rest => !endB || boundaryAfter rest
  | none => false

/-- Some alternative matches at this position. -/
def anyAltAt (endB : Bool) (alts : List (List PatTok)) (l : List Char) : Bool :=
  alts.any (fun a => altMatchesAt endB a l)

/-- Scan all positions; `prevWord` tracks whether the preceding
character is a word character, so a leading `\b` holds exactly when
`prevWord = false` (every scanned alternative starts with a word
character). -/
def scanFrom (endB : Bool) (alts : List (List PatTok)) (prevWord : Bool) : List Char → Bool
| [] => false
| c :: rest =>
    (!prevWord && anyAltAt endB alts (c :: rest)) || scanFrom endB alts (isWordChar c) rest

/-- `/\b(...alts...)\b?/.test`: existence of a match anywhere. -/
def containsPat (endB : Bool) (alts : List (List PatTok)) (l : List Char) : Bool :=
  scanFrom endB alts false l

/-- Plain word alternation `\b(w1|w2|...)\b`. -/
def wordAlts (ws : List String) : List (List PatTok) :=
  ws.map (fun w => [litTok w])

/-- `/\b(w1|...)\b/.test` on a normalized message. -/
def wordTest (ws : List String) (l : List Char) : Bool :=
  containsPat true (wordAlts ws) l

/-! Money pattern
`/(\$\s*\d+(?:\.\d{1,2})?)|(\b\d+(?:\.\d{1,2})?\s*(dollars?|usd|bucks?)\b)/` -/

/-- Left alternative: some `$` is followed by optional whitespace and a
digit (the tail `(?:\.\d{1,2})?` is optional, so it never constrains
existence). -/
def moneySignScan : List Char → Bool
| [] => false
| c :: rest =>
    (c == '$' &&
      (match rest.dropWhile isSpaceChar with
      | d :: _ => d.isDigit
      | [] => false))
    || moneySignScan rest

/-- The currency words, with their trailing `\b`. -/
def currencyWordAt (l : List Char) : Bool :=
  anyAltAt true (wordAlts ["dollar", "dollars", "usd", "buck", "bucks"]) l

/-- Candidate `(fraction digits, rest)` splits for `(?:\.\d{1,2})?`,
in greedy order (two digits, one digit, none). -/
def fracCands (l : List Char) : List (List Char × List Char) :=
  match l with
  | '.' :: d1 :: d2 :: t =>
    if d1.isDigit && d2.isDigit then [([d1, d2], t), ([d1], d2 :: t), ([], l)]
    else if d1.isDigit then [([d1], d2 :: t), ([], l)]
    else [([], l)]
  | '.' :: d1 :: t =>
    if d1.isDigit then [([d1], t), ([], l)] else [([], l)]
  | _ => [([], l)]

/-- Right alternative: a digit run at a word boundary, an optional
fraction, optional whitespace, then a currency word ending at a word
boundary. -/
def moneyWordScan (prevWord : Bool) : List Char → Bool
| [] => false
| c :: rest =>
    (!prevWord && c.isDigit &&
      (fracCands (rest.dropWhile Char.isDigit)).any
        (fun fc => currencyWordAt (fc.2.dropWhile isSpaceChar)))
    || moneyWordScan (isWordChar c) rest

/-- `MONEY_REFERENCE_PATTERN.test`. -/
def moneyTest (l : List Char) : Bool :=
  moneySignScan l || moneyWordScan false l

/-! Question pattern
`/\?|^\s*(what|why|how|when|where|who|which|can|could|would|should|is|are|do|does|did)\b/` -/

/-- The interrogative lead words. -/
def questionWords : List String :=
  ["what", "why", "how", "when", "where", "who", "which", "can", "could",
   "would", "should", "is", "are", "do", "does", "did"]

/-- `QUESTION_PATTERN.test`: a `?` anywhere, or a lead word after the
anchored `^\s*`. -/
def questionTest (l : List Char) : Bool :=
  l.contains '?' || anyAltAt true (wordAlts questionWords) (l.dropWhile isSpaceChar)

/-! Account-scoped vocabulary patterns. -/

/-- The two alternatives of `lead\s+\w+\s+trades?`. -/
def leadTradesAlts (lead : String) : List (List PatTok) :=
  [[litTok lead, .ws1, .wordRun, .ws1, litTok "trades"],
   [litTok lead, .ws1, .wordRun, .ws1, litTok "trade"]]

/-- `ACCOUNT_WRITE_PATTERN` of `classifyMessageIntent.ts` (alternation,
in source order; `positions?`, `trades?` expanded). -/
def ACCOUNT_WRITE_ALTS : List (List PatTok) :=
  [[litTok "balance"], [litTok "portfolio"], [litTok "positions"], [litTok "position"],
   [litTok "trade", .ws1, litTok "history"], [litTok "history"],
   [litTok "connect", .ws1, litTok "account"], [litTok "verify"], [litTok "disconnect"],
   [litTok "status"], [litTok "linked", .ws1, litTok "wallet"],
   [litTok "recent", .ws1, litTok "trades"], [litTok "recent", .ws1, litTok "trade"]]
  ++ leadTradesAlts "past" ++ leadTradesAlts "last"

/-- `accountScopedPattern` of `isDeterministicWriteMessage` (same
alternatives, router order). -/
def ROUTER_ACCOUNT_ALTS : List (List PatTok) :=
  [[litTok "balance"], [litTok "portfolio"], [litTok "positions"], [litTok "position"],
   [litTok "trade", .ws1, litTok "history"], [litTok "history"],
   [litTok "recent", .ws1, litTok "trades"], [litTok "recent", .ws1, litTok "trade"]]
  ++ leadTradesAlts "past" ++ leadTradesAlts "last"
  ++ [[litTok "connect", .ws1, litTok "account"], [litTok "verify"], [litTok "disconnect"],
      [litTok "status"], [litTok "linked", .ws1, litTok "wallet"]]

/-! ### Intent classifier (`src/discord/classifyMessageIntent.ts`) -/

/-- The routing pipelines. -/
inductive MessageIntentPipeline
| READ
| WRITE
deriving DecidableEq, Repr

/-- `WRITE_ACTION_VERB_PATTERN` word list. -/
def classifyVerbWords : List String := ["bet", "place", "buy", "sell", "trade"]

/-- `classifyMessageIntent`. -/
def classifyMessageIntent (message : String) : MessageIntentPipeline :=
  let normalized := normChars message
  if normalized.length = 0 then .READ
  else if containsPat true ACCOUNT_WRITE_ALTS normalized then .WRITE
  else if questionTest normalized then .READ
  else if wordTest classifyVerbWords normalized && moneyTest normalized then .WRITE
  else .READ

/-! ### Router-side scanners (`DiscordMessageRouter.ts`) -/

/-- Consume a literal. -/
def dropLit (w : String) (l : List Char) : Option (List Char) :=
  if w.data.isPrefixOf l then some (l.drop w.length) else none

/-- `isDeterministicWriteMessage`. -/
def isDeterministicWriteMessage (message : String) : Bool :=
  let normalized := normChars message
  if normalized.length = 0 then false
  else if containsPat true ROUTER_ACCOUNT_ALTS normalized then true
  else
    wordTest ["bet", "place", "buy", "sell", "exit", "close", "trade", "market"] normalized
      && moneyTest normalized

/-! The (garbled) trade-history trigger of `tryDeterministicWriteFallback`:
`/\b(past | last | recent) \b.*\btrades ?\b |\btrade\s + history\b /`.
Written out, its first alternative needs one of `"past  "`, `" last  "`,
`" recent "` (with the literal spaces, each `\b`-feasible side checked),
followed by a word character, with `"trades "` at a word boundary
somewhere after; its second needs `"trade"`, one whitespace, one or more
spaces, then `"history "`.  It is embedded literally. -/

/-- `"trades "` preceded by a word boundary, anywhere from here on. -/
def tradesSpaceScan (prevWord : Bool) : List Char → Bool
| [] => false
| c :: rest =>
    (!prevWord && "trades ".data.isPrefixOf (c :: rest))
    || tradesSpaceScan (isWordChar c) rest

/-- First alternative of the history trigger, tested at one position. -/
def histAltAAt (prevWord : Bool) (l : List Char) : Bool :=
  let tryLead (needPrevWord : Bool) (w : String) : Bool :=
    (prevWord == needPrevWord) &&
      (match dropLit w l with
      | some rest =>
        (match rest with
        | c :: _ => isWordChar c
        | [] => false) && tradesSpaceScan false rest
      | none => false)
  tryLead false "past  " || tryLead true " last  " || tryLead true " recent "

/-- Second alternative of the history trigger, tested at one position. -/
def histAltBAt (prevWord : Bool) (l : List Char) : Bool :=
  !prevWord &&
    (match dropLit "trade" l with
    | some r =>
      (match r with
      | c :: r2 =>
        isSpaceChar c &&
          (match r2 with
          | ' ' :: r3 => ("history ".data.isPrefixOf (r3.dropWhile (· == ' ')))
          | _ => false)
      | [] => false)
    | none => false)

/-- Scan a position-indexed boolean test over the whole string. -/
def scanTest (f : Bool → List Char → Bool) (prevWord : Bool) : List Char → Bool
| [] => false
| c :: rest => f prevWord (c :: rest) || scanTest f (isWordChar c) rest

/-- The whole history-trigger regex. -/
def histTriggerTest (l : List Char) : Bool :=
  scanTest histAltAAt false l || scanTest histAltBAt false l

/-! First-match amount extraction of `tryDeterministicWriteFallback`.
`amountCents = Math.round(Number(capture) * 100)`; for captures with at
most two decimals this is the exact cent value, embedded directly. -/

/-- Cents denoted by an integer-digit run and a 0–2 digit fraction. -/
def centsOf (intDigits fracDigits : List Char) : Nat :=
  decodeDecimal intDigits 0 * 100 +
    (match fracDigits with
    | [d] => (d.toNat - 48) * 10
    | [d1, d2] => (d1.toNat - 48) * 10 + (d2.toNat - 48)
    | _ => 0)

/-- First match of `/\$\s*(\d+(?:\.\d{1,2})?)/`, as cents. -/
def amountSignScan : List Char → Option Nat
| [] => none
| c :: rest =>
    if c == '$' then
      let r := rest.dropWhile isSpaceChar
      let ds := r.takeWhile Char.isDigit
      if ds.isEmpty then amountSignScan rest
      else some (centsOf ds ((((fracCands (r.dropWhile Char.isDigit)).head?).map (·.1)).getD []))
    else amountSignScan rest

/-- First match of `/\b(\d+(?:\.\d{1,2})?)\s*(dollars?|usd|bucks?)\b/`,
as cents (fraction candidates tried in greedy order). -/
def amountWordScan (prevWord : Bool) : List Char → Option Nat
| [] => none
| c :: rest =>
    (if !prevWord && c.isDigit then
      let ds := c :: rest.takeWhile Char.isDigit
      (fracCands (rest.dropWhile Char.isDigit)).findSome?
        (fun fc =>
          if currencyWordAt (fc.2.dropWhile isSpaceChar) then some (centsOf ds fc.1)
          else none)
    else none).orElse
      (fun _ => amountWordScan (isWordChar c) rest)

/-- `normalized.match(sign) ?? normalized.match(word)`, as cents. -/
def parseFallbackAmountCents (l : List Char) : Option Nat :=
  (amountSignScan l).orElse (fun _ => amountWordScan false l)

/-! Timed up-or-down market resolution (`tryResolveTimedUpDownMarket`). -/

/-- Alternatives `\b(n1|n2)\s*(u1|u2|...)` (no trailing `\b` in the
timed-market timeframe regexes). -/
def tfAlts (nums units : List String) : List (List PatTok) :=
  nums.flatMap (fun n => units.map (fun u => [litTok n, .ws0, litTok u]))

/-- A Gamma-resolved timed market: the market plus its event slug. -/
structure TimedMarketResult where
  market : MarketInfo
  slug : String
deriving DecidableEq, Repr

/-- `tryResolveTimedUpDownMarket`.  The pure guards (asset word,
timeframe word, trade-word requirement) come from the source; when they
all pass, the Gamma API lookup over the computed slugs is an external
fetch whose outcome is the injected `oracle`. -/
def tryResolveTimedUpDownMarket (message : String) (oracle : Option TimedMarketResult) :
    Option TimedMarketResult :=
  let n := normChars message
  let wantsAsset :=
    wordTest ["bitcoin", "btc"] n || wordTest ["ethereum", "eth"] n
      || wordTest ["solana", "sol"] n || wordTest ["xrp", "ripple"] n
  if !wantsAsset then none
  else
    let wantsTimeframe :=
      containsPat false (tfAlts ["15", "fifteen"] ["m", "min", "minute"]) n
        || containsPat false (tfAlts ["5", "five"] ["m", "min", "minute"]) n
        || containsPat false (tfAlts ["1", "one"] ["h", "hr", "hour"]) n
        || containsPat false (tfAlts ["60"] ["m", "min"]) n
        || containsPat false (tfAlts ["4", "four"] ["h", "hr", "hour"]) n
        || containsPat false (tfAlts ["1", "one"] ["d", "day"]) n
        || containsPat false (tfAlts ["24"] ["h", "hr", "hour"]) n
    if !wantsTimeframe then none
    else if !wordTest ["up", "down", "bet", "market", "buy", "sell"] n then none
    else oracle

/-! `pickBestNaturalTradeMarket` and `extractQuestionMinuteRange`. -/

/-- One side of the `h:mm(am|pm)` time range. -/
structure TimePiece where
  hour : Nat
  minute : Nat
  pm : Bool
  rest : List Char
deriving Repr

/-- After a candidate hour: `:`, exactly two digits, then `am`/`pm`. -/
def timeAfterHour (h : Nat) (l : List Char) : Option TimePiece :=
  match l with
  | ':' :: m1 :: m2 :: rest =>
    if m1.isDigit && m2.isDigit then
      let minute := (m1.toNat - 48) * 10 + (m2.toNat - 48)
      match rest with
      | 'a' :: 'm' :: r2 => some ⟨h, minute, false, r2⟩
      | 'p' :: 'm' :: r2 => some ⟨h, minute, true, r2⟩
      | _ => none
    else none
  | _ => none

/-- Greedy candidates for `\d{1,2}` (two digits, then one). -/
def hourCands : List Char → List (Nat × List Char)
| d1 :: d2 :: r =>
    if d1.isDigit && d2.isDigit then
      [((d1.toNat - 48) * 10 + (d2.toNat - 48), r), (d1.toNat - 48, d2 :: r)]
    else if d1.isDigit then [(d1.toNat - 48, d2 :: r)]
    else []
| [d1] => if d1.isDigit then [(d1.toNat - 48, [])] else []
| [] => []

/-- Time pieces matchable at this position, in greedy order. -/
def timePieceCands (l : List Char) : List TimePiece :=
  (hourCands l).filterMap (fun hc => timeAfterHour hc.1 hc.2)

/-- The full `(\d{1,2}):(\d{2})(am|pm)\s*-\s*(\d{1,2}):(\d{2})(am|pm)`
at this position. -/
def timeRangeAt (l : List Char) : Option (TimePiece × TimePiece) :=
  (timePieceCands l).findSome? (fun p1 =>
    match p1.rest.dropWhile isSpaceChar with
    | '-' :: r2 =>
      ((timePieceCands (r2.dropWhile isSpaceChar)).head?).map (fun p2 => (p1, p2))
    | _ => none)

/-- Leftmost match of the time-range pattern. -/
def timeRangeScan : List Char → Option (TimePiece × TimePiece)
| [] => none
| c :: rest => (timeRangeAt (c :: rest)).orElse (fun _ => timeRangeScan rest)

/-- `toMinuteOfDay`. -/
def toMinuteOfDay (hourRaw minute : Nat) (pm : Bool) : Option Nat :=
  if hourRaw < 1 ∨ hourRaw > 12 ∨ minute > 59 then none
  else some ((hourRaw % 12 + if pm then 12 else 0) * 60 + minute)

/-- `extractQuestionMinuteRange` (on the lowercased question). -/
def extractQuestionMinuteRange (l : List Char) : Option Int :=
  match timeRangeScan l with
  | none => none
  | some (p1, p2) =>
    match toMinuteOfDay p1.hour p1.minute p1.pm, toMinuteOfDay p2.hour p2.minute p2.pm with
    | some s, some e =>
      let diff : Int := (e : Int) - (s : Int)
      some (if diff < 0 then diff + 24 * 60 else diff)
    | _, _ => none

/-- The timeframe checks reused by `pickBestNaturalTradeMarket` (these
ones carry a trailing `\b` in the source). -/
def wantsFiveMinTest (l : List Char) : Bool :=
  containsPat true (tfAlts ["5", "five"] ["m", "min", "minute"]) l

/-- Fifteen-minute variant. -/
def wantsFifteenMinTest (l : List Char) : Bool :=
  containsPat true (tfAlts ["15", "fifteen"] ["m", "min", "minute"]) l

/-- `question.includes(sub)` on char lists. -/
def includesSub (sub : List Char) : List Char → Bool
| [] => sub.isPrefixOf ([] : List Char)
| c :: rest => sub.isPrefixOf (c :: rest) || includesSub sub rest

/-- `timeframeHint.replace(' minute', '')` (first occurrence). -/
def replaceFirstMinute : List Char → List Char
| [] => []
| c :: rest =>
    if " minute".data.isPrefixOf (c :: rest) then (c :: rest).drop 7
    else c :: replaceFirstMinute rest

/-- Score of one market in `pickBestNaturalTradeMarket`. -/
def naturalMarketScore (wantsBitcoin wantsEthereum wantsFiveMin wantsFifteenMin : Bool)
    (timeframeHint : String) (market : MarketInfo) : Int :=
  let q := market.question.data.map Char.toLower
  let s0 : Int := 0
  let s1 := s0 + (if wantsBitcoin && includesSub "bitcoin".data q then 8 else 0)
  let s2 := s1 + (if wantsBitcoin && includesSub "btc".data q then 5 else 0)
  let s3 := s2 + (if wantsEthereum && includesSub "ethereum".data q then 8 else 0)
  let s4 := s3 + (if wantsEthereum && includesSub "eth".data q then 5 else 0)
  let s5 := s4 + (if includesSub "up or down".data q then 4 else 0)
  let s6 := s5 + (if includesSub "updown".data q then 3 else 0)
  let rangeMinutes := extractQuestionMinuteRange q
  let s7 := s6 +
    (if wantsFifteenMin then
      (match rangeMinutes with
      | some m => if m = 15 then 6 else -3
      | none => 0)
    else 0)
  let s8 := s7 +
    (if wantsFiveMin then
      (match rangeMinutes with
      | some m => if m = 5 then 6 else -3
      | none => 0)
    else 0)
  let s9 := s8 +
    (if timeframeHint ≠ "" && includesSub (replaceFirstMinute timeframeHint.data) q then 2
     else 0)
  s9 + (if includesSub "current".data q then 1 else 0)

/-- The strict-candidate filter of `pickBestNaturalTradeMarket`. -/
def strictTimedCandidate (wantsBitcoin wantsEthereum wantsFiveMin wantsFifteenMin : Bool)
    (market : MarketInfo) : Bool :=
  let q := market.question.data.map Char.toLower
  let hasAsset :=
    if wantsBitcoin then includesSub "bitcoin".data q || includesSub "btc".data q
    else if wantsEthereum then includesSub "ethereum".data q || includesSub "eth".data q
    else true
  let hasTimedLabel := includesSub "up or down".data q || includesSub "updown".data q
  let minutes := extractQuestionMinuteRange q
  let timeframeOk :=
    if wantsFifteenMin then minutes == some 15
    else if wantsFiveMin then minutes == some 5
    else true
  hasAsset && hasTimedLabel && timeframeOk

/-- First entry of maximal score: what `sort((a,b) => b.score - a.score)`
(a stable sort) followed by `[0]` selects. -/
def selectTopScored (scored : List (MarketInfo × Int)) : Option (MarketInfo × Int) :=
  scored.foldl
    (fun acc mi =>
      match acc with
      | none => some mi
      | some best => if mi.2 > best.2 then some mi else acc)
    none

/-- `pickBestNaturalTradeMarket`. -/
def pickBestNaturalTradeMarket (markets : List MarketInfo) (normalizedMessage : List Char)
    (timeframeHint : String) : Option MarketInfo :=
  let activeMarkets := markets.filter (fun m => m.status == .active)
  if activeMarkets.isEmpty then none
  else
    let wantsBitcoin := wordTest ["bitcoin", "btc"] normalizedMessage
    let wantsEthereum := wordTest ["ethereum", "eth"] normalizedMessage
    let wantsFiveMin := wantsFiveMinTest normalizedMessage
    let wantsFifteenMin := wantsFifteenMinTest normalizedMessage
    let strictCandidates := activeMarkets.filter
      (strictTimedCandidate wantsBitcoin wantsEthereum wantsFiveMin wantsFifteenMin)
    let pool := if strictCandidates.isEmpty then activeMarkets else strictCandidates
    let scored := pool.map (fun m =>
      (m, naturalMarketScore wantsBitcoin wantsEthereum wantsFiveMin wantsFifteenMin
            timeframeHint m))
    match selectTopScored scored with
    | some best => if best.2 > 0 then some best.1 else pool.head?
    | none => pool.head?

/-- JavaScript `[a-fA-F0-9]`. -/
def isHexDigitChar (c : Char) : Bool :=
  c.isDigit || ('a' ≤ c && c ≤ 'f') || ('A' ≤ c && c ≤ 'F')

/-- `/0x[a-fA-F0-9]{40}/` at this position. -/
def hexAddrAt : List Char → Bool
| '0' :: 'x' :: r => (r.take 40).length == 40 && (r.take 40).all isHexDigitChar
| _ => false

/-- `/0x[a-fA-F0-9]{40}/.test` (on the raw, uncased text, as in the
source). -/
def hexAddrScan : List Char → Bool
| [] => false
| c :: rest => hexAddrAt (c :: rest) || hexAddrScan rest

/-! ### Discord message router (`src/discord/DiscordMessageRouter.ts`)

The router is stateful: a `pendingTrades : Map<string, {execute, expiresAtMs}>`
plus the module-level spend ledger of `limits.ts`.  The pending
executor closure is defunctionalized into the data it captures
(`tradeRequest`, user, action, amount, presentation fields); executing
an entry calls the injected trader and applies exactly the ledger write
the closure performs.  `crypto.randomUUID()` is the injected
`freshConfirmId`; `Date.now()` and `deps.nowMs()` are the operation's
`nowMs` (the production wiring passes `() => Date.now()`). -/

/-- `RouteResult`. -/
inductive RouteResult
| text (content : String)
| confirm (confirmId : String) (marketQuestion : String) (outcome : Outcome)
    (action : TradeAction) (amountDollars : String)
deriving DecidableEq, Repr

/-- The gateway's closed error vocabulary. -/
inductive TradeErrorCode
| limitExceeded
| invalidMarket
| marketNotActive
| invalidAmount
| rateLimited
| upstreamUnavailable
| abuseBlocked
| internalError
deriving DecidableEq, Repr

/-- `TradeResult` (the fields the router consumes). -/
inductive TradeResult
| success (tradeId : String) (executedAtMs : Nat)
| failure (errorCode : TradeErrorCode)
deriving DecidableEq, Repr

/-- `result.ok`. -/
def tradeOk : TradeResult → Bool
| .success _ _ => true
| .failure _ => false

/-- `(n / 100).toFixed(2)` for the nonnegative integer cent amounts the
router displays. -/
def centsToDollarsDisplay (cents : Int) : String :=
  let c := cents.toNat
  let frac := c % 100
  Nat.repr (c / 100) ++ "." ++ (if frac < 10 then "0" ++ Nat.repr frac else Nat.repr frac)

/-- `formatTradeResultMessage`; the Discord markdown is abbreviated to
its semantic payload (every claim consumes only the message's
presence). -/
def formatTradeResultMessage (result : TradeResult) (marketQuestion : String)
    (outcome : Outcome) (action : TradeAction) (amountCents : Int) : String :=
  match result with
  | .success tradeId _ =>
    (if action = .sell then "Sold! " else "Bought! ") ++ marketQuestion ++ " "
      ++ outcomeString outcome ++ " $" ++ centsToDollarsDisplay amountCents
      ++ " " ++ tradeId
  | .failure _ => "Trade failed"

/-- `mapValidationErrorToUserMessage`. -/
def mapValidationErrorToUserMessage : ValidationErrorCode → String
| .accountNotConnected => "Trading is not available right now. Please contact an admin."
| .invalidMarket => "That market could not be found. Please check the market and try again."
| .marketNotActive => "That market is not currently active for trading."
| .invalidAmount => "The trade amount is invalid. Please provide a positive whole-number amount in cents."
| .limitExceeded => "This trade exceeds your current spending limit window."

/-- The generic fail-closed parse reply. -/
def couldNotParseText : String :=
  "I could not confidently parse that request. Please try again with a clearer command."

/-- The daily-limit refusal reply. -/
def dailyLimitReachedText (remainingCents : Int) : String :=
  "Daily limit reached. You can spend $" ++ centsToDollarsDisplay remainingCents
    ++ " more today (limit: $" ++ centsToDollarsDisplay DAILY_LIMIT_CENTS ++ "/day)."

/-- One stored pending trade: the data captured by the executor closure
plus the expiry instant. -/
structure PendingEntry where
  userId : String
  actionForSpend : TradeAction
  amountCents : Int
  request : TradeRequest
  marketQuestion : String
  outcome : Outcome
  expiresAtMs : Nat
deriving DecidableEq, Repr

/-- The pending-trade `Map` as an association list with unique keys. -/
abbrev PendingMap : Type := List (String × PendingEntry)

/-- `Map.get`. -/
def mapGet : PendingMap → String → Option PendingEntry
| [], _ => none
| (k, v) :: rest, confirmId => if k = confirmId then some v else mapGet rest confirmId

/-- `Map.delete` (keys are unique, so dropping every binding of the key
is the deletion of the one binding). -/
def mapErase : PendingMap → String → PendingMap
| [], _ => []
| (k, v) :: rest, confirmId =>
    if k = confirmId then mapErase rest confirmId else (k, v) :: mapErase rest confirmId

/-- `Map.set`. -/
def mapSet : PendingMap → String → PendingEntry → PendingMap
| [], confirmId, e => [(confirmId, e)]
| (k, v) :: rest, confirmId, e =>
    if k = confirmId then (k, e) :: rest else (k, v) :: mapSet rest confirmId e

/-- The router's mutable state: the pending map and the spend ledger. -/
structure RouterState where
  pendingTrades : PendingMap
  ledger : Ledger

/-- Fresh router over an empty ledger. -/
def RouterState.initial : RouterState := ⟨[], Ledger.empty⟩

/-- Pending confirmations expire 5 minutes after creation. -/
def PENDING_TTL_MS : Nat := 5 * 60 * 1000

/-- `executePendingTrade`, returning the optional reply, the new state,
and whether the stored executor (hence the trade gateway) was invoked. -/
def executePendingTrade (trader : TradeRequest → TradeResult) (confirmId : String)
    (nowMs : Nat) (s : RouterState) : Option String × RouterState × Bool :=
  match mapGet s.pendingTrades confirmId with
  | none => (none, s, false)
  | some pending =>
    let s1 : RouterState := { s with pendingTrades := mapErase s.pendingTrades confirmId }
    if pending.expiresAtMs < nowMs then (none, s1, false)
    else
      let tradeResult := trader pending.request
      let s2 : RouterState :=
        if tradeOk tradeResult && pending.actionForSpend == TradeAction.buy then
          { s1 with ledger := recordSpend pending.userId pending.amountCents nowMs s1.ledger }
        else s1
      (some (formatTradeResultMessage tradeResult pending.marketQuestion pending.outcome
              pending.actionForSpend pending.amountCents),
       s2, true)

/-- `cancelPendingTrade`. -/
def cancelPendingTrade (confirmId : String) (s : RouterState) : Bool × RouterState :=
  if (mapGet s.pendingTrades confirmId).isSome then
    (true, { s with pendingTrades := mapErase s.pendingTrades confirmId })
  else (false, s)

/-- Entries surviving one purge round: every entry with
`expiresAtMs < now` is deleted. -/
def purgeExpired (nowMs : Nat) : PendingMap → PendingMap
| [] => []
| (k, v) :: rest =>
    if v.expiresAtMs < nowMs then purgeExpired nowMs rest
    else (k, v) :: purgeExpired nowMs rest

/-- One round of the 2-minute purge interval installed by the
constructor. -/
def sweepExpiredPending (nowMs : Nat) (s : RouterState) : RouterState :=
  { s with pendingTrades := purgeExpired nowMs s.pendingTrades }

/-- The injected dependencies and external-effect outcomes consumed by
one routed message: the parser's result, the validation context, market
lookups, the Gamma oracle, the generated confirm id, and the reply
strings produced by the purely external read paths. -/
structure WriteDeps where
  parseResult : Option AgentOutput
  validationCtx : ValidationContext
  getMarketById : String → Option MarketInfo
  timedMarketOracle : Option TimedMarketResult
  searchMarkets : String → List MarketInfo
  freshConfirmId : String
  proxyWalletEnv : Option String
  readReply : String
  walletReply : String
  balanceHeader : String
  historyReply : String

/-- The daily-limit gate of both write paths: the short-circuit
`action === 'BUY' && !isOwnerExempt(u) && !(await canSpend(u, amount))`
calls `canSpend` (with its state effect) only for a non-exempt buy. -/
def spendGateCheck (discordUserId : String) (action : TradeAction) (amountCents : Int)
    (nowMs : Nat) (L : Ledger) : Bool × Ledger :=
  if action = .buy ∧ isOwnerExempt discordUserId = false then
    canSpend discordUserId amountCents nowMs L
  else (true, L)

/-- Fallback `action`: sell/exit/close means SELL, everything else BUY. -/
def fallbackAction (normalized : List Char) : TradeAction :=
  if wordTest ["sell", "exit", "close"] normalized then .sell else .buy

/-- Fallback `outcome`: up/yes/long means YES, down/no/short means NO. -/
def fallbackOutcome (normalized : List Char) : Option Outcome :=
  if wordTest ["up", "yes", "long"] normalized then some .yes
  else if wordTest ["down", "no", "short"] normalized then some .no
  else none

/-- Fallback `assetQuery`. -/
def fallbackAssetQuery (normalized : List Char) : Option String :=
  if wordTest ["bitcoin", "btc"] normalized then some "bitcoin up or down"
  else if wordTest ["ethereum", "eth"] normalized then some "ethereum up or down"
  else none

/-- Fallback `timeframe` hint. -/
def fallbackTimeframe (normalized : List Char) : String :=
  if wantsFiveMinTest normalized then "5 minute"
  else if wantsFifteenMinTest normalized then "15 minute"
  else ""

/-- `tryDeterministicWriteFallback`.  External reads (recent trades,
wallet APIs) surface as injected reply strings; every `return null` in
the source occurs before any state mutation, which the `Option` result
mirrors. -/
def tryDeterministicWriteFallback (message discordUserId : String) (deps : WriteDeps)
    (nowMs : Nat) (s : RouterState) : Option (RouteResult × RouterState) :=
  let normalized := normChars message
  if histTriggerTest normalized then some (.text deps.historyReply, s)
  else
    let amountMatch := parseFallbackAmountCents normalized
    let action : TradeAction := fallbackAction normalized
    let outcome : Option Outcome := fallbackOutcome normalized
    if amountMatch.isNone || outcome.isNone
        || !wordTest ["bet", "buy", "sell", "trade", "market", "exit", "close"] normalized then
      none
    else
      let amountCents : Int := (amountMatch.getD 0 : Nat)
      if amountCents ≤ 0 then
        some (.text "The trade amount is invalid. Please provide a positive amount.", s)
      else
        match fallbackAssetQuery normalized with
        | none => none
        | some assetQueryText =>
          let timedResult := tryResolveTimedUpDownMarket message deps.timedMarketOracle
          let selectedMarket : Option MarketInfo :=
            match timedResult with
            | some t => some t.market
            | none =>
              pickBestNaturalTradeMarket (deps.searchMarkets assetQueryText) normalized
                (fallbackTimeframe normalized)
          match selectedMarket with
          | none =>
            some (.text "I could not find an active matching market right now. Please specify the market ID.", s)
          | some market =>
            let pseudoIntent : PlaceBet :=
              { userId := discordUserId
                marketId := market.id
                outcome := outcome.getD .yes
                action := some action
                amountCents := amountCents
                rawText := some message }
            let spendGate : Bool × Ledger :=
              spendGateCheck discordUserId action pseudoIntent.amountCents nowMs s.ledger
            if spendGate.1 = false then
              let rem := getRemainingToday discordUserId nowMs spendGate.2
              some (.text (dailyLimitReachedText rem.1), { s with ledger := rem.2 })
            else
              let s1 : RouterState := { s with ledger := spendGate.2 }
              let vctx : ValidationContext :=
                { deps.validationCtx with
                    marketLookup := fun marketId =>
                      if marketId ≠ pseudoIntent.marketId then
                        deps.validationCtx.marketLookup marketId
                      else some ⟨market.id, market.status⟩ }
              match validateAgentOutput (.placeBet pseudoIntent) vctx with
              | .err code => some (.text (mapValidationErrorToUserMessage code), s1)
              | .ok =>
                let identity : UserIdentity :=
                  { discordUserId := discordUserId
                    polymarketAccountId := vctx.polymarketAccountId.getD "" }
                let tradeRequest := buildTradeRequest pseudoIntent identity market nowMs
                let entry : PendingEntry :=
                  { userId := discordUserId
                    actionForSpend := action
                    amountCents := pseudoIntent.amountCents
                    request := tradeRequest
                    marketQuestion := market.question
                    outcome := pseudoIntent.outcome
                    expiresAtMs := nowMs + PENDING_TTL_MS }
                some (.confirm deps.freshConfirmId market.question pseudoIntent.outcome action
                        (centsToDollarsDisplay pseudoIntent.amountCents),
                      { s1 with pendingTrades := mapSet s1.pendingTrades deps.freshConfirmId entry })

/-- `handleWrite`. -/
def handleWrite (message discordUserId : String) (deps : WriteDeps) (nowMs : Nat)
    (s : RouterState) : RouteResult × RouterState :=
  match deps.parseResult with
  | none =>
    match tryDeterministicWriteFallback message discordUserId deps nowMs s with
    | some r => r
    | none => (.text couldNotParseText, s)
  | some (.getBalance _ rawText) =>
    let raw := rawText.getD message
    if hexAddrScan raw.data then (.text deps.walletReply, s)
    else if isOwnerExempt discordUserId then
      (.text (deps.balanceHeader ++ " Daily limit: unlimited (owner)"), s)
    else
      let r1 := getSpentToday discordUserId nowMs s.ledger
      let r2 := getRemainingToday discordUserId nowMs r1.2
      (.text (deps.balanceHeader ++ " Your daily spend: $" ++ centsToDollarsDisplay r1.1
          ++ " / $" ++ centsToDollarsDisplay DAILY_LIMIT_CENTS
          ++ " Remaining today: $" ++ centsToDollarsDisplay r2.1),
       { s with ledger := r2.2 })
  | some (.getTradeHistory _ _) =>
    let linkedAccountId := (deps.validationCtx.polymarketAccountId).orElse
      (fun _ => deps.proxyWalletEnv)
    match linkedAccountId with
    | none => (.text "Trading is not available right now. Please contact an admin.", s)
    | some _ => (.text deps.historyReply, s)
  | some (.queryMarket _) =>
    (.text "I could not confirm a trade placement request. Please restate the trade with explicit action and amount.", s)
  | some (.placeBet pb) =>
    let actionForSpend : TradeAction := pb.action.getD .buy
    let spendGate : Bool × Ledger :=
      spendGateCheck discordUserId actionForSpend pb.amountCents nowMs s.ledger
    if spendGate.1 = false then
      let rem := getRemainingToday discordUserId nowMs spendGate.2
      (.text (dailyLimitReachedText rem.1), { s with ledger := rem.2 })
    else
      let s1 : RouterState := { s with ledger := spendGate.2 }
      let resolvedMarket := deps.getMarketById pb.marketId
      let timedResolution := tryResolveTimedUpDownMarket message deps.timedMarketOracle
      let effectiveMarket : Option MarketInfo :=
        match timedResolution with
        | some t => some t.market
        | none => resolvedMarket
      let effectiveIntent : PlaceBet :=
        { pb with marketId := ((effectiveMarket.map (·.id)).getD pb.marketId) }
      let vctx : ValidationContext :=
        { deps.validationCtx with
            marketLookup := fun marketId =>
              if marketId ≠ effectiveIntent.marketId then
                deps.validationCtx.marketLookup marketId
              else
                match effectiveMarket with
                | none => none
                | some m => some ⟨m.id, m.status⟩ }
      match validateAgentOutput (.placeBet effectiveIntent) vctx with
      | .err code => (.text (mapValidationErrorToUserMessage code), s1)
      | .ok =>
        match effectiveMarket with
        | none => (.text (mapValidationErrorToUserMessage .invalidMarket), s1)
        | some market =>
          let identity : UserIdentity :=
            { discordUserId := discordUserId
              polymarketAccountId := vctx.polymarketAccountId.getD "" }
          let tradeRequest := buildTradeRequest effectiveIntent identity market nowMs
          let entry : PendingEntry :=
            { userId := discordUserId
              actionForSpend := actionForSpend
              amountCents := effectiveIntent.amountCents
              request := tradeRequest
              marketQuestion := market.question
              outcome := effectiveIntent.outcome
              expiresAtMs := nowMs + PENDING_TTL_MS }
          (.confirm deps.freshConfirmId market.question effectiveIntent.outcome actionForSpend
              (centsToDollarsDisplay effectiveIntent.amountCents),
           { s1 with pendingTrades := mapSet s1.pendingTrades deps.freshConfirmId entry })

/-- `routeMessage`. -/
def routeMessage (message discordUserId : String) (deps : WriteDeps) (nowMs : Nat)
    (s : RouterState) : RouteResult × RouterState :=
  if isDeterministicWriteMessage message then handleWrite message discordUserId deps nowMs s
  else
    match classifyMessageIntent message with
    | .READ => (.text deps.readReply, s)
    | .WRITE => handleWrite message discordUserId deps nowMs s

/-! ### Operation traces over the router -/

/-- The externally drivable operations on one router instance. -/
inductive RouterOp
| route (message discordUserId : String) (deps : WriteDeps) (nowMs : Nat)
| execTrade (trader : TradeRequest → TradeResult) (confirmId : String) (nowMs : Nat)
| cancel (confirmId : String)
| sweep (nowMs : Nat)

/-- State effect of one operation. -/
def applyOp (s : RouterState) : RouterOp → RouterState
| .route message discordUserId deps nowMs => (routeMessage message discordUserId deps nowMs s).2
| .execTrade trader confirmId nowMs => (executePendingTrade trader confirmId nowMs s).2.1
| .cancel confirmId => (cancelPendingTrade confirmId s).2
| .sweep nowMs => sweepExpiredPending nowMs s

/-- Run a trace of operations. -/
def runOps (ops : List RouterOp) (s : RouterState) : RouterState :=
  ops.foldl applyOp s

/-! ### Claim-side comparison definitions and trace predicates -/

/-- The classifier rule order exactly as the claim states it (account
vocabulary, then question marker, then verb-and-money, else READ),
with no separate empty-string case; compared against
`classifyMessageIntent` for the refinement claim. -/
def classifyClaimOrder (message : String) : MessageIntentPipeline :=
  let normalized := normChars message
  if containsPat true ACCOUNT_WRITE_ALTS normalized then .WRITE
  else if questionTest normalized then .READ
  else if wordTest classifyVerbWords normalized && moneyTest normalized then .WRITE
  else .READ

/-- The post-ledger differs from the pre-ledger at most by zeroed
(evicted) buckets. -/
def LedgerEvictOnly (L L' : Ledger) : Prop :=
  ∀ v d, L' v d = L v d ∨ L' v d = 0

/-- State effect of one `handleWrite`: the ledger is at most evicted,
and the pending map is unchanged or gains exactly one fresh entry for
the routed user, expiring one TTL later; a stored buy entry for a
non-exempt user fits under the daily ceiling on top of the routed
day's counter. -/
def HandleWriteStateShape (discordUserId : String) (deps : WriteDeps) (nowMs : Nat)
    (s s' : RouterState) : Prop :=
  LedgerEvictOnly s.ledger s'.ledger ∧
  (s'.pendingTrades = s.pendingTrades ∨ ∃ e : PendingEntry,
    s'.pendingTrades = mapSet s.pendingTrades deps.freshConfirmId e
    ∧ e.userId = discordUserId
    ∧ e.expiresAtMs = nowMs + PENDING_TTL_MS
    ∧ 0 < e.amountCents
    ∧ (e.actionForSpend = .buy → isOwnerExempt discordUserId = false →
        s'.ledger discordUserId (dayKey nowMs) + e.amountCents ≤ DAILY_LIMIT_CENTS))

/-- No operation of the trace generates this confirm id. -/
def opsAvoidStoring (confirmId : String) (ops : List RouterOp) : Bool :=
  ops.all fun op =>
    match op with
    | .route _ _ deps _ => deps.freshConfirmId != confirmId
    | _ => true

/-- The stored pending entries of `m` that are buy confirmations of
user `u`. -/
def isBuyOf (u : String) (e : PendingEntry) : Bool :=
  e.userId == u && e.actionForSpend == TradeAction.buy

/-- All stored entries of `m` satisfying `p`. -/
def valuesFiltered (p : PendingEntry → Bool) (m : PendingMap) : List PendingEntry :=
  (m.map (fun kv => kv.2)).filter p

/-- The pending buy confirmations of user `u`. -/
def buyEntries (u : String) (m : PendingMap) : List PendingEntry :=
  valuesFiltered (isBuyOf u) m

/-- The UTC day on which an entry was stored (its expiry minus the
TTL). -/
def routedDayOf (e : PendingEntry) : Nat := dayKey (e.expiresAtMs - PENDING_TTL_MS)

/-- The spend invariant for a (non-exempt) user, relative to the last
clock reading `tau`: every daily counter sits in `[0, 500]`, counters of
days strictly after `dayKey tau` are still zero (no `recordSpend` has run
there yet), at most one buy confirmation of the user is pending, and a
pending buy has a positive amount that was routed no later than day
`dayKey tau` and still fits under the ceiling on top of the counter of
every day from its routing day on. -/
def SpendInv (u : String) (tau : Nat) (s : RouterState) : Prop :=
  (∀ d, 0 ≤ s.ledger u d ∧ s.ledger u d ≤ DAILY_LIMIT_CENTS)
  ∧ (∀ d, dayKey tau < d → s.ledger u d = 0)
  ∧ (buyEntries u s.pendingTrades).length ≤ 1
  ∧ ∀ e ∈ buyEntries u s.pendingTrades,
      0 < e.amountCents ∧ routedDayOf e ≤ dayKey tau
      ∧ ∀ d, routedDayOf e ≤ d → s.ledger u d + e.amountCents ≤ DAILY_LIMIT_CENTS

/-- One operation respects user `u`'s serialization discipline: `u`
routes a new message only while no buy confirmation of theirs is
pending.  Nothing is required of executions, cancellations or sweeps —
in particular a buy confirmation may execute on a later UTC day than it
was routed. -/
def stepSafeB (u : String) (s : RouterState) : RouterOp → Bool
| .route _ discordUserId _ _ =>
    decide (discordUserId = u → buyEntries u s.pendingTrades = [])
| .execTrade _ _ _ => true
| .cancel _ => true
| .sweep _ => true

/-- The operation's `Date.now()` reading, when it makes one, is at
least `tau` (`cancelPendingTrade` never reads the clock). -/
def opClockLeB (tau : Nat) : RouterOp → Bool
| .route _ _ _ nowMs => decide (tau ≤ nowMs)
| .execTrade _ _ nowMs => decide (tau ≤ nowMs)
| .cancel _ => true
| .sweep nowMs => decide (tau ≤ nowMs)

/-- The clock lower bound after the operation. -/
def opClockAfter (tau : Nat) : RouterOp → Nat
| .route _ _ _ nowMs => nowMs
| .execTrade _ _ nowMs => nowMs
| .cancel _ => tau
| .sweep nowMs => nowMs

/-- The whole trace respects `u`'s discipline, under the monotone system
clock: starting from lower bound `tau`, successive `Date.now()` readings
never decrease (an environmental fact of the real runtime). -/
def safeTraceB (u : String) : Nat → RouterState → List RouterOp → Bool
| _, _, [] => true
| tau, s, op :: rest =>
    opClockLeB tau op && stepSafeB u s op
      && safeTraceB u (opClockAfter tau op) (applyOp s op) rest

/-! ### Concrete instances used by witnesses and counterexamples -/

/-- A lookup that knows one active market `m1`. -/
def lookupM1 : String → Option MarketProjection :=
  fun marketId => if marketId = "m1" then some ⟨"m1", .active⟩ else none

/-- A `place_bet` intent for $5.00 on `m1`. -/
def pb500 : PlaceBet := ⟨"u1", "m1", .yes, some .buy, 500, none⟩

/-- Context with no resolvable account. -/
def ctxNullAcct : ValidationContext := ⟨none, 500, 0, lookupM1⟩

/-- Context with $1.00 already spent in the rolling hour. -/
def ctxHourly : ValidationContext := ⟨some "acct", 500, 100, lookupM1⟩

/-- Context satisfying every precondition. -/
def ctxGood : ValidationContext := ⟨some "acct", 500, 0, lookupM1⟩

/-- A ledger holding $4.00 spent by `u1` on day 0. -/
def ledger400 : Ledger := fun v d => if v = "u1" ∧ d = 0 then 400 else 0

/-- A concrete active market. -/
def mktM1 : MarketInfo := ⟨"m1", "Will it rain", .active⟩

/-- Router dependencies that parse a $5.00 buy on `m1`, with the given
generated confirm id. -/
def depsMain (freshId : String) : WriteDeps :=
  { parseResult := some (.placeBet pb500)
    validationCtx := ctxGood
    getMarketById := fun marketId => if marketId = "m1" then some mktM1 else none
    timedMarketOracle := none
    searchMarkets := fun _ => []
    freshConfirmId := freshId
    proxyWalletEnv := none
    readReply := "read"
    walletReply := "wallet"
    balanceHeader := "balance"
    historyReply := "history" }

/-- A gateway that always succeeds. -/
def traderOkT : TradeRequest → TradeResult := fun _ => .success "t" 0

/-- A `place_bet` SELL intent for $3.00 on `m1`. -/
def pbSell : PlaceBet := ⟨"u1", "m1", .yes, some .sell, 300, none⟩

/-- Dependencies that parse the SELL intent. -/
def depsSell : WriteDeps := { depsMain "cs" with parseResult := some (.placeBet pbSell) }

/-- State after routing one $5.00 buy at `nowMs = 100` (confirm id
`c1`). -/
def stateAfterOneBuy : RouterState :=
  (routeMessage "buy $5" "u1" (depsMain "c1") 100 RouterState.initial).2

/-- The overlapping-confirmations trace: two $5.00 buys routed (both
pass the pre-check against a $0 counter), then both executed. -/
def overlappingBuysOps : List RouterOp :=
  [.route "buy $5" "u1" (depsMain "c1") 100,
   .route "buy $5" "u1" (depsMain "c2") 200,
   .execTrade traderOkT "c1" 1000,
   .execTrade traderOkT "c2" 2000]

/-- A serialized cross-midnight trace: a $5.00 buy routed one minute
before UTC midnight executes one second after midnight (within its
5-minute TTL), recording into the new day's bucket; a second $5.00 buy
routed on the new day is then refused by the daily gate and its
confirm id never exists. -/
def crossMidnightOps : List RouterOp :=
  [.route "buy $5" "u1" (depsMain "c1") 86340000,
   .execTrade traderOkT "c1" 86401000,
   .route "buy $5" "u1" (depsMain "c2") 86460000,
   .execTrade traderOkT "c2" 86520000]

/-- A pending entry whose expiry already passed at any positive time. -/
def entryExpired : PendingEntry :=
  ⟨"u1", .buy, 500, buildTradeRequest pb500 ⟨"u1", "acct"⟩ mktM1 0, "Will it rain", .yes, 0⟩

/-- A router state still holding the expired entry (the sweep has not
run). -/
def expiredState : RouterState := ⟨[("c0", entryExpired)], Ledger.empty⟩

/-! ## Theorems -/

/-! ### Decimal representation helpers (for the idempotency key) -/

theorem digitChar_toNat_sub (m : Nat) (h : m < 10) : (Nat.digitChar m).toNat - 48 = m := by
  interval_cases m <;> decide

theorem toDigitsCore_fuel_irrel (n : Nat) :
    ∀ f1 f2 ds, n + 1 ≤ f1 → n + 1 ≤ f2 →
      Nat.toDigitsCore 10 f1 n ds = Nat.toDigitsCore 10 f2 n ds := by
  induction n using Nat.strong_induction_on with
  | _ n ih =>
    intro f1 f2 ds h1 h2
    match f1, h1 with
    | f1 + 1, _ =>
      match f2, h2 with
      | f2 + 1, _ =>
        by_cases h : n / 10 = 0
        · simp [Nat.toDigitsCore, h]
        · have hn : 10 ≤ n := by omega
          simp only [Nat.toDigitsCore, h, if_false]
          exact ih (n / 10) (by omega) f1 f2 _ (by omega) (by omega)

theorem toDigitsCore_append (n : Nat) :
    ∀ f ds, n + 1 ≤ f →
      Nat.toDigitsCore 10 f n ds = Nat.toDigitsCore 10 f n [] ++ ds := by
  induction n using Nat.strong_induction_on with
  | _ n ih =>
    intro f ds hf
    match f, hf with
    | f + 1, _ =>
      by_cases h : n / 10 = 0
      · simp [Nat.toDigitsCore, h]
      · have hn : 10 ≤ n := by omega
        simp only [Nat.toDigitsCore, h, if_false]
        rw [ih (n / 10) (by omega) f _ (by omega),
            ih (n / 10) (by omega) f [Nat.digitChar (n % 10)] (by omega),
            List.append_assoc]
        rfl

theorem decodeDecimal_append (l1 l2 : List Char) (acc : Nat) :
    decodeDecimal (l1 ++ l2) acc = decodeDecimal l2 (decodeDecimal l1 acc) := by
  induction l1 generalizing acc with
  | nil => rfl
  | cons c rest ih => simp [decodeDecimal, ih]

theorem decode_toDigits (n : Nat) : decodeDecimal (Nat.toDigits 10 n) 0 = n := by
  induction n using Nat.strong_induction_on with
  | _ n ih =>
    show decodeDecimal (Nat.toDigitsCore 10 (n + 1) n []) 0 = n
    by_cases h : n / 10 = 0
    · simp only [Nat.toDigitsCore, h, if_true]
      simp only [decodeDecimal, Nat.zero_mul, Nat.zero_add]
      rw [digitChar_toNat_sub _ (Nat.mod_lt _ (by omega))]
      omega
    · have hn : 10 ≤ n := by omega
      simp only [Nat.toDigitsCore, h, if_false]
      rw [toDigitsCore_fuel_irrel (n / 10) n (n / 10 + 1) _ (by omega) (by omega),
          toDigitsCore_append (n / 10) _ _ (Nat.le_refl _),
          decodeDecimal_append]
      have hrec : decodeDecimal (Nat.toDigitsCore 10 (n / 10 + 1) (n / 10) []) 0 = n / 10 :=
        ih (n / 10) (by omega)
      rw [hrec]
      simp only [decodeDecimal]
      rw [digitChar_toNat_sub _ (Nat.mod_lt _ (by omega))]
      omega

theorem natRepr_injective {m n : Nat} (h : Nat.repr m = Nat.repr n) : m = n := by
  have hd : Nat.toDigits 10 m = Nat.toDigits 10 n := congrArg String.data h
  calc m = decodeDecimal (Nat.toDigits 10 m) 0 := (decode_toDigits m).symm
    _ = decodeDecimal (Nat.toDigits 10 n) 0 := by rw [hd]
    _ = n := decode_toDigits n

theorem string_append_cancel {p x y : String} (h : p ++ x = p ++ y) : x = y := by
  apply String.ext
  have hd : p.data ++ x.data = p.data ++ y.data := congrArg String.data h
  exact List.append_cancel_left hd

/-- The idempotency key laid out as an append chain ending in the
bucket representation. -/
theorem idempotencyKey_shape (identity : UserIdentity) (marketId : String)
    (outcome : Outcome) (amountCents : Int) (nowMs windowMs : Nat) :
    createDeterministicIdempotencyKey identity marketId outcome amountCents nowMs windowMs =
      (identity.discordUserId ++ ":" ++ identity.polymarketAccountId ++ ":" ++ marketId
        ++ ":" ++ outcomeString outcome ++ ":" ++ toString amountCents ++ ":")
        ++ Nat.repr (nowMs / windowMs) := rfl

/-- C6: `buildTradeRequest` produces the `':'`-join of user id, account
id, market id, outcome, amount and `floor(nowMs / 300000)`; two
invocations agreeing on everything and on the 5-minute bucket produce
equal keys, and two invocations identical except for the bucket produce
different keys. -/
theorem buildTradeRequest_idempotency_key_spec (pb : PlaceBet) (identity : UserIdentity)
    (market : MarketInfo) :
    (∀ nowMs, (buildTradeRequest pb identity market nowMs).idempotencyKey =
        String.intercalate ":"
          [identity.discordUserId, identity.polymarketAccountId, market.id,
           outcomeString pb.outcome, toString pb.amountCents,
           Nat.repr (nowMs / (5 * 60 * 1000))])
    ∧ (∀ n1 n2, n1 / IDEMPOTENCY_WINDOW_MS = n2 / IDEMPOTENCY_WINDOW_MS →
        (buildTradeRequest pb identity market n1).idempotencyKey =
          (buildTradeRequest pb identity market n2).idempotencyKey)
    ∧ (∀ n1 n2, n1 / IDEMPOTENCY_WINDOW_MS ≠ n2 / IDEMPOTENCY_WINDOW_MS →
        (buildTradeRequest pb identity market n1).idempotencyKey ≠
          (buildTradeRequest pb identity market n2).idempotencyKey) := by
  refine ⟨fun nowMs => rfl, fun n1 n2 h => ?_, fun n1 n2 h hk => ?_⟩
  · show createDeterministicIdempotencyKey _ _ _ _ _ _ =
      createDeterministicIdempotencyKey _ _ _ _ _ _
    rw [idempotencyKey_shape, idempotencyKey_shape, h]
  · apply h
    apply natRepr_injective
    have hk2 : createDeterministicIdempotencyKey identity market.id pb.outcome pb.amountCents
        n1 IDEMPOTENCY_WINDOW_MS =
        createDeterministicIdempotencyKey identity market.id pb.outcome pb.amountCents
        n2 IDEMPOTENCY_WINDOW_MS := hk
    rw [idempotencyKey_shape, idempotencyKey_shape] at hk2
    exact string_append_cancel hk2

/-! ### Output validator claims -/

/-- C5 counterexample: an active market and `500 ≤ amount ≤ remaining`
do not suffice for `validateAgentOutput` to return Ok — a context with
an unresolved account is rejected with `ACCOUNT_NOT_CONNECTED`, and a
context with rolling-hour spend is rejected with `LIMIT_EXCEEDED`. -/
theorem validate_active_within_limits_not_sufficient :
    (ctxNullAcct.marketLookup pb500.marketId = some ⟨"m1", .active⟩
      ∧ 500 ≤ pb500.amountCents
      ∧ pb500.amountCents ≤ ctxNullAcct.remainingDailyLimitCents
      ∧ validateAgentOutput (.placeBet pb500) ctxNullAcct = .err .accountNotConnected)
    ∧ (ctxHourly.marketLookup pb500.marketId = some ⟨"m1", .active⟩
      ∧ ctxHourly.polymarketAccountId = some "acct"
      ∧ 500 ≤ pb500.amountCents
      ∧ pb500.amountCents ≤ ctxHourly.remainingDailyLimitCents
      ∧ validateAgentOutput (.placeBet pb500) ctxHourly = .err .limitExceeded) := by
  decide

/-- C5 (amended): whenever additionally the account id resolves and the
rolling-hour ceiling admits the amount, an active market with
`500 ≤ amount ≤ remaining` validates Ok. -/
theorem validate_ok_of_connected_active_within_limits
    (pb : PlaceBet) (ctx : ValidationContext) (m : MarketProjection)
    (hacct : ctx.polymarketAccountId.isSome = true)
    (hm : ctx.marketLookup pb.marketId = some m)
    (hact : m.status = .active)
    (hlo : 500 ≤ pb.amountCents)
    (hhi : pb.amountCents ≤ ctx.remainingDailyLimitCents)
    (hhr : ctx.spentThisHourCents + pb.amountCents ≤ HOURLY_LIMIT_CENTS) :
    validateAgentOutput (.placeBet pb) ctx = .ok := by
  have h1 : ¬ pb.amountCents ≤ 0 := by omega
  have h2 : ¬ pb.amountCents > ctx.remainingDailyLimitCents := by omega
  have h3 : ¬ ctx.spentThisHourCents + pb.amountCents > HOURLY_LIMIT_CENTS := by omega
  cases hx : ctx.polymarketAccountId with
  | none => rw [hx] at hacct; simp at hacct
  | some a => simp [validateAgentOutput, hx, hm, hact, h1, h2, h3]

/-- C5 witness: the amended theorem applied at a concrete in-range
request. -/
theorem validate_ok_of_connected_active_within_limits_witness :
    validateAgentOutput (.placeBet pb500) ctxGood = .ok :=
  validate_ok_of_connected_active_within_limits pb500 ctxGood ⟨"m1", .active⟩
    (by decide) (by decide) rfl (by decide) (by decide) (by decide)

/-! ### Spend-ledger claims -/

theorem evict_today (u : String) (nowMs : Nat) (L : Ledger) :
    evictStaleEntries u nowMs L u (dayKey nowMs) = L u (dayKey nowMs) := by
  simp [evictStaleEntries]

theorem evict_retained (u v : String) (nowMs d : Nat) (L : Ledger)
    (h : d = dayKey nowMs ∨ d = dayKey (nowMs - MS_PER_DAY)) :
    evictStaleEntries u nowMs L v d = L v d := by
  rcases h with h | h <;> simp [evictStaleEntries, h]

theorem memGetSpent_fst (u : String) (nowMs : Nat) (L : Ledger) :
    (memGetSpent u nowMs L).1 = L u (dayKey nowMs) := by
  simp [memGetSpent, evict_today]

theorem trySpendFold_today (u : String) (nowMs : Nat) :
    ∀ (amounts : List Int) (L : Ledger),
      (trySpendFold u nowMs amounts L).2 u (dayKey nowMs) =
        L u (dayKey nowMs) + acceptedSum amounts (trySpendFold u nowMs amounts L).1
      ∧ (L u (dayKey nowMs) ≤ DAILY_LIMIT_CENTS →
          (trySpendFold u nowMs amounts L).2 u (dayKey nowMs) ≤ DAILY_LIMIT_CENTS) := by
  intro amounts
  induction amounts with
  | nil => intro L; simp [trySpendFold, acceptedSum]
  | cons a rest ih =>
    intro L
    by_cases hc : (memGetSpent u nowMs L).1 + a > DAILY_LIMIT_CENTS
    · have hs : trySpend u a nowMs L = (false, (memGetSpent u nowMs L).2) := by
        simp [trySpend, hc]
      have hL : (memGetSpent u nowMs L).2 u (dayKey nowMs) = L u (dayKey nowMs) := by
        simp [memGetSpent, evict_today]
      simp only [trySpendFold, hs]
      rcases ih ((memGetSpent u nowMs L).2) with ⟨heq, hb⟩
      constructor
      · rw [heq, hL]; rfl
      · intro h0; exact hb (by rw [hL]; exact h0)
    · push_neg at hc
      have hs : trySpend u a nowMs L =
          (true, memRecordSpend u a nowMs (memGetSpent u nowMs L).2) := by
        simp [trySpend]
        omega
      have hL : memRecordSpend u a nowMs (memGetSpent u nowMs L).2 u (dayKey nowMs) =
          L u (dayKey nowMs) + a := by
        simp [memRecordSpend, memGetSpent, evict_today]
      simp only [trySpendFold, hs]
      rcases ih (memRecordSpend u a nowMs (memGetSpent u nowMs L).2) with ⟨heq, hb⟩
      constructor
      · rw [heq, hL, acceptedSum]; ring
      · intro _
        apply hb
        rw [hL]
        rw [memGetSpent_fst] at hc
        exact hc

/-- C2: `trySpend` checks `current + amount <= 500` against the same-day
counter and is an atomic check-and-record: the returned boolean is
exactly the check; the post-ledger is the pre-ledger with today's
counter incremented by exactly `amount` when the check passes and with
only the scheduled stale-bucket eviction otherwise (in particular, on
failure every retained bucket — today's and yesterday's, for every
user — and every observable counter is unchanged); and any sequence of
calls from a fresh ledger records exactly the sum of the accepted
amounts, never exceeding the ceiling. -/
theorem trySpend_atomic_spec (u : String) (a : Int) (nowMs : Nat) (L : Ledger) :
    ((trySpend u a nowMs L).1 =
      decide ((memGetSpent u nowMs L).1 + a ≤ DAILY_LIMIT_CENTS))
    ∧ (∀ v d, (trySpend u a nowMs L).2 v d =
        if (memGetSpent u nowMs L).1 + a ≤ DAILY_LIMIT_CENTS ∧ v = u ∧ d = dayKey nowMs
        then (memGetSpent u nowMs L).1 + a
        else evictStaleEntries u nowMs L v d)
    ∧ ((memGetSpent u nowMs L).1 + a > DAILY_LIMIT_CENTS →
        (∀ v d, d = dayKey nowMs ∨ d = dayKey (nowMs - MS_PER_DAY) →
          (trySpend u a nowMs L).2 v d = L v d)
        ∧ ∀ v, (memGetSpent v nowMs ((trySpend u a nowMs L).2)).1 =
            (memGetSpent v nowMs L).1)
    ∧ (∀ amounts : List Int,
        (trySpendFold u nowMs amounts Ledger.empty).2 u (dayKey nowMs) =
          acceptedSum amounts (trySpendFold u nowMs amounts Ledger.empty).1
        ∧ (trySpendFold u nowMs amounts Ledger.empty).2 u (dayKey nowMs) ≤
            DAILY_LIMIT_CENTS) := by
  refine ⟨?_, ?_, ?_, ?_⟩
  · by_cases hc : (memGetSpent u nowMs L).1 + a > DAILY_LIMIT_CENTS
    · have hs : trySpend u a nowMs L = (false, (memGetSpent u nowMs L).2) := by
        simp [trySpend, hc]
      rw [hs, decide_eq_false (by omega)]
    · push_neg at hc
      have hs : trySpend u a nowMs L =
          (true, memRecordSpend u a nowMs (memGetSpent u nowMs L).2) := by
        simp [trySpend]; omega
      rw [hs, decide_eq_true hc]
  · intro v d
    by_cases hc : (memGetSpent u nowMs L).1 + a > DAILY_LIMIT_CENTS
    · have hs : trySpend u a nowMs L = (false, (memGetSpent u nowMs L).2) := by
        simp [trySpend, hc]
      have hneg : ¬ ((memGetSpent u nowMs L).1 + a ≤ DAILY_LIMIT_CENTS
          ∧ v = u ∧ d = dayKey nowMs) := fun hx => by omega
      rw [hs, if_neg hneg]
      simp [memGetSpent]
    · push_neg at hc
      have hs : trySpend u a nowMs L =
          (true, memRecordSpend u a nowMs (memGetSpent u nowMs L).2) := by
        simp [trySpend]; omega
      rw [hs]
      by_cases hv : v = u ∧ d = dayKey nowMs
      · rw [if_pos ⟨hc, hv.1, hv.2⟩]
        rcases hv with ⟨h1, h2⟩
        subst h1; subst h2
        simp [memRecordSpend, memGetSpent, evict_today, memGetSpent_fst]
      · rw [if_neg (fun hx => hv ⟨hx.2.1, hx.2.2⟩)]
        simp only [memRecordSpend, memGetSpent]
        rw [if_neg hv]
  · intro hc
    have hs : trySpend u a nowMs L = (false, (memGetSpent u nowMs L).2) := by
      simp [trySpend, hc]
    have hs2 : (trySpend u a nowMs L).2 = evictStaleEntries u nowMs L := by
      rw [hs]; simp [memGetSpent]
    constructor
    · intro v d hd
      rw [hs2]
      exact evict_retained u v nowMs d L hd
    · intro v
      rw [memGetSpent_fst, memGetSpent_fst, hs2]
      exact evict_retained u v nowMs (dayKey nowMs) L (Or.inl rfl)
  · intro amounts
    rcases trySpendFold_today u nowMs amounts Ledger.empty with ⟨heq, hb⟩
    refine ⟨?_, hb (by simp [Ledger.empty, DAILY_LIMIT_CENTS])⟩
    rw [heq]
    simp [Ledger.empty]

/-- C2 witness: a failing `trySpend` (400 cents spent, 200 requested)
leaves the counter unchanged. -/
theorem trySpend_atomic_spec_witness :
    (trySpend "u1" 200 0 ledger400).2 "u1" 0 = ledger400 "u1" 0 :=
  ((trySpend_atomic_spec "u1" 200 0 ledger400).2.2.1 (by decide)).1 "u1" 0
    (Or.inl (by decide))

/-! ### Intent-classifier claim -/

/-- C8: `classifyMessageIntent` decides WRITE on the account-scoped
vocabulary, otherwise READ on a question marker, otherwise WRITE
exactly when an action verb and a monetary reference are both present,
otherwise READ — and the empty string (whose trimmed form matches no
pattern) is READ. -/
theorem classifyMessageIntent_rule_order :
    (∀ message, classifyMessageIntent message = classifyClaimOrder message)
    ∧ classifyMessageIntent "" = .READ := by
  constructor
  · intro message
    by_cases h : normChars message = []
    · simp only [classifyMessageIntent, classifyClaimOrder, h]
      decide
    · have hlen : ¬ (normChars message).length = 0 := by
        intro hh
        exact h (List.length_eq_zero.mp hh)
      simp only [classifyMessageIntent, classifyClaimOrder, if_neg hlen]
  · decide

/-! ### Pending-map helper lemmas -/

theorem mapGet_erase_self (m : PendingMap) (confirmId : String) :
    mapGet (mapErase m confirmId) confirmId = none := by
  induction m with
  | nil => rfl
  | cons kv rest ih =>
    rcases kv with ⟨k, v⟩
    by_cases h : k = confirmId
    · simpa [mapErase, h] using ih
    · simpa [mapErase, h, mapGet] using ih

theorem mapGet_erase_ne (m : PendingMap) (confirmId other : String) (h : other ≠ confirmId) :
    mapGet (mapErase m confirmId) other = mapGet m other := by
  have hco : ¬ confirmId = other := fun hh => h hh.symm
  induction m with
  | nil => rfl
  | cons kv rest ih =>
    rcases kv with ⟨k, v⟩
    by_cases hk : k = confirmId
    · have hko : ¬ k = other := fun ho => h (ho ▸ hk)
      simpa [mapErase, hk, mapGet, hko, hco, h] using ih
    · by_cases ho : k = other
      · simp [mapErase, hk, mapGet, ho, hco, h]
      · simpa [mapErase, hk, mapGet, ho, hco, h] using ih

theorem mapGet_set_ne (m : PendingMap) (confirmId other : String) (e : PendingEntry)
    (h : other ≠ confirmId) :
    mapGet (mapSet m confirmId e) other = mapGet m other := by
  have hco : ¬ confirmId = other := fun hh => h hh.symm
  induction m with
  | nil => simp [mapSet, mapGet, hco]
  | cons kv rest ih =>
    rcases kv with ⟨k, v⟩
    by_cases hk : k = confirmId
    · have hko : ¬ k = other := fun ho => h (ho ▸ hk)
      simp [mapSet, hk, mapGet, hko, hco, h]
    · by_cases ho : k = other
      · simp [mapSet, hk, mapGet, ho, hco, h]
      · simpa [mapSet, hk, mapGet, ho, hco, h] using ih

theorem mapGet_purge_none (m : PendingMap) (confirmId : String) (nowMs : Nat)
    (h : mapGet m confirmId = none) :
    mapGet (purgeExpired nowMs m) confirmId = none := by
  induction m with
  | nil => rfl
  | cons kv rest ih =>
    rcases kv with ⟨k, v⟩
    by_cases hk : k = confirmId
    · simp [mapGet, hk] at h
    · have h2 : mapGet rest confirmId = none := by simpa [mapGet, hk] using h
      by_cases hexp : (v.expiresAtMs < nowMs : Prop)
      · simpa [purgeExpired, hexp] using ih h2
      · simpa [purgeExpired, hexp, mapGet, hk] using ih h2

/-! ### Ledger-effect helper lemmas -/

theorem ledgerEvictOnly_refl (L : Ledger) : LedgerEvictOnly L L :=
  fun _ _ => Or.inl rfl

theorem ledgerEvictOnly_trans {L1 L2 L3 : Ledger} (h12 : LedgerEvictOnly L1 L2)
    (h23 : LedgerEvictOnly L2 L3) : LedgerEvictOnly L1 L3 := by
  intro v d
  rcases h23 v d with h | h
  · rcases h12 v d with h' | h'
    · exact Or.inl (h.trans h')
    · exact Or.inr (h.trans h')
  · exact Or.inr h

theorem ledgerEvictOnly_evict (u : String) (nowMs : Nat) (L : Ledger) :
    LedgerEvictOnly L (evictStaleEntries u nowMs L) := by
  intro v d
  unfold evictStaleEntries
  split
  · exact Or.inr rfl
  · exact Or.inl rfl

theorem canSpend_snd (u : String) (a : Int) (nowMs : Nat) (L : Ledger) :
    (canSpend u a nowMs L).2 = evictStaleEntries u nowMs L := rfl

theorem canSpend_fst (u : String) (a : Int) (nowMs : Nat) (L : Ledger) :
    (canSpend u a nowMs L).1 = decide (L u (dayKey nowMs) + a ≤ DAILY_LIMIT_CENTS) := by
  simp [canSpend, getSpentToday, memGetSpent_fst]

theorem getRemainingToday_snd (u : String) (nowMs : Nat) (L : Ledger) :
    (getRemainingToday u nowMs L).2 = evictStaleEntries u nowMs L := rfl

theorem getSpentToday_snd (u : String) (nowMs : Nat) (L : Ledger) :
    (getSpentToday u nowMs L).2 = evictStaleEntries u nowMs L := rfl

theorem shape_refl (discordUserId : String) (deps : WriteDeps) (nowMs : Nat)
    (s : RouterState) : HandleWriteStateShape discordUserId deps nowMs s s :=
  ⟨ledgerEvictOnly_refl s.ledger, Or.inl rfl⟩

theorem shape_ledger (discordUserId : String) (deps : WriteDeps) (nowMs : Nat)
    (s : RouterState) (L' : Ledger) (hL : LedgerEvictOnly s.ledger L') :
    HandleWriteStateShape discordUserId deps nowMs s { s with ledger := L' } :=
  ⟨hL, Or.inl rfl⟩

theorem spent_evictOnly (u : String) (nowMs : Nat) {L0 L : Ledger}
    (h : LedgerEvictOnly L0 L) : LedgerEvictOnly L0 (getSpentToday u nowMs L).2 :=
  ledgerEvictOnly_trans h (by rw [getSpentToday_snd]; exact ledgerEvictOnly_evict _ _ _)

theorem remaining_evictOnly (u : String) (nowMs : Nat) {L0 L : Ledger}
    (h : LedgerEvictOnly L0 L) : LedgerEvictOnly L0 (getRemainingToday u nowMs L).2 :=
  ledgerEvictOnly_trans h (by rw [getRemainingToday_snd]; exact ledgerEvictOnly_evict _ _ _)

theorem gate_ledger_evictOnly (u : String) (action : TradeAction) (a : Int) (nowMs : Nat)
    (L : Ledger) : LedgerEvictOnly L (spendGateCheck u action a nowMs L).2 := by
  unfold spendGateCheck
  split
  · rw [canSpend_snd]; exact ledgerEvictOnly_evict u nowMs L
  · exact ledgerEvictOnly_refl L

theorem gate_pass_bound (u : String) (action : TradeAction) (a : Int) (nowMs : Nat)
    (L : Ledger) (hbuy : action = .buy) (hex : isOwnerExempt u = false)
    (hgate : ¬ ((spendGateCheck u action a nowMs L).1 = false)) :
    (spendGateCheck u action a nowMs L).2 u (dayKey nowMs) + a ≤ DAILY_LIMIT_CENTS := by
  unfold spendGateCheck at hgate ⊢
  rw [if_pos ⟨hbuy, hex⟩] at hgate ⊢
  rw [canSpend_snd, evict_today]
  have h1 : (canSpend u a nowMs L).1 = true := by
    cases hb : (canSpend u a nowMs L).1
    · exact absurd hb hgate
    · rfl
  rw [canSpend_fst] at h1
  exact of_decide_eq_true h1

/-! ### Write-path state-shape lemmas -/

theorem validate_ok_amount_pos (pb : PlaceBet) (ctx : ValidationContext)
    (h : validateAgentOutput (.placeBet pb) ctx = .ok) : 0 < pb.amountCents := by
  cases ha : ctx.polymarketAccountId with
  | none => simp [validateAgentOutput, ha] at h
  | some a =>
    cases hm : ctx.marketLookup pb.marketId with
    | none => simp [validateAgentOutput, ha, hm] at h
    | some mk =>
      by_cases hs : mk.status ≠ .active
      · simp [validateAgentOutput, ha, hm, hs] at h
      · by_cases hneg : pb.amountCents ≤ 0
        · simp [validateAgentOutput, ha, hm, hs, hneg] at h
        · omega

theorem fallback_shape (m uid : String) (deps : WriteDeps) (nowMs : Nat) (s : RouterState)
    (rs : RouteResult × RouterState)
    (h : tryDeterministicWriteFallback m uid deps nowMs s = some rs) :
    HandleWriteStateShape uid deps nowMs s rs.2 := by
  simp only [tryDeterministicWriteFallback] at h
  repeat' split at h
  all_goals first
    | exact Option.noConfusion h
    | (cases h; exact shape_refl uid deps nowMs s)
    | (cases h; exact shape_ledger uid deps nowMs s _
        (remaining_evictOnly uid nowMs (gate_ledger_evictOnly uid _ _ nowMs s.ledger)))
    | (cases h; exact shape_ledger uid deps nowMs s _
        (gate_ledger_evictOnly uid _ _ nowMs s.ledger))
    | (cases h
       refine ⟨gate_ledger_evictOnly uid _ _ nowMs s.ledger,
         Or.inr ⟨_, rfl, rfl, rfl, ?_, ?_⟩⟩
       · have hpos := validate_ok_amount_pos _ _
           ‹validateAgentOutput _ _ = ValidationResult.ok›
         exact hpos
       · intro hbuy hex
         exact gate_pass_bound uid _ _ nowMs s.ledger hbuy hex (by assumption))

theorem handleWrite_shape (m uid : String) (deps : WriteDeps) (nowMs : Nat)
    (s : RouterState) :
    HandleWriteStateShape uid deps nowMs s (handleWrite m uid deps nowMs s).2 := by
  simp only [handleWrite]
  repeat' split
  all_goals first
    | exact shape_refl uid deps nowMs s
    | (apply fallback_shape m uid deps nowMs s; assumption)
    | exact shape_ledger uid deps nowMs s _
        (remaining_evictOnly uid nowMs (spent_evictOnly uid nowMs
          (ledgerEvictOnly_refl s.ledger)))
    | exact shape_ledger uid deps nowMs s _
        (remaining_evictOnly uid nowMs (gate_ledger_evictOnly uid _ _ nowMs s.ledger))
    | exact shape_ledger uid deps nowMs s _ (gate_ledger_evictOnly uid _ _ nowMs s.ledger)
    | (refine ⟨gate_ledger_evictOnly uid _ _ nowMs s.ledger,
         Or.inr ⟨_, rfl, rfl, rfl, ?_, ?_⟩⟩
       · have hpos := validate_ok_amount_pos _ _
           ‹validateAgentOutput _ _ = ValidationResult.ok›
         exact hpos
       · intro hbuy hex
         exact gate_pass_bound uid _ _ nowMs s.ledger hbuy hex (by assumption))

theorem routeMessage_shape (m uid : String) (deps : WriteDeps) (nowMs : Nat)
    (s : RouterState) :
    HandleWriteStateShape uid deps nowMs s (routeMessage m uid deps nowMs s).2 := by
  simp only [routeMessage]
  repeat' split
  all_goals first
    | exact shape_refl uid deps nowMs s
    | exact handleWrite_shape m uid deps nowMs s

/-! ### Confirmation-registry claims -/

theorem mapGet_erase_none (m : PendingMap) (confirmId k : String)
    (h : mapGet m confirmId = none) : mapGet (mapErase m k) confirmId = none := by
  by_cases hk : confirmId = k
  · subst hk; exact mapGet_erase_self m confirmId
  · rw [mapGet_erase_ne m k confirmId hk]; exact h

theorem exec_pending_trades (trader : TradeRequest → TradeResult) (confirmId : String)
    (nowMs : Nat) (s : RouterState) :
    (executePendingTrade trader confirmId nowMs s).2.1.pendingTrades = s.pendingTrades
    ∨ (executePendingTrade trader confirmId nowMs s).2.1.pendingTrades =
        mapErase s.pendingTrades confirmId := by
  simp only [executePendingTrade]
  repeat' split
  all_goals first
    | exact Or.inl rfl
    | exact Or.inr rfl

theorem exec_some_erases (trader : TradeRequest → TradeResult) (confirmId : String)
    (nowMs : Nat) (s : RouterState)
    (h : (executePendingTrade trader confirmId nowMs s).1.isSome = true) :
    (executePendingTrade trader confirmId nowMs s).2.1.pendingTrades =
      mapErase s.pendingTrades confirmId := by
  simp only [executePendingTrade] at h ⊢
  revert h
  repeat' split
  all_goals intro h
  all_goals first
    | rfl
    | simp at h

theorem cancel_pending_trades (confirmId : String) (s : RouterState) :
    (cancelPendingTrade confirmId s).2.pendingTrades = s.pendingTrades
    ∨ (cancelPendingTrade confirmId s).2.pendingTrades =
        mapErase s.pendingTrades confirmId := by
  unfold cancelPendingTrade
  split
  · exact Or.inr rfl
  · exact Or.inl rfl

theorem absent_preserved_op (confirmId : String) (s : RouterState) (op : RouterOp)
    (h : mapGet s.pendingTrades confirmId = none)
    (havoid : opsAvoidStoring confirmId [op] = true) :
    mapGet (applyOp s op).pendingTrades confirmId = none := by
  cases op with
  | route message discordUserId deps nowMs =>
    have hne : deps.freshConfirmId ≠ confirmId := by
      simpa [opsAvoidStoring] using havoid
    rcases (routeMessage_shape message discordUserId deps nowMs s).2 with hp | ⟨e, hp, _⟩
    · rw [show (applyOp s (.route message discordUserId deps nowMs)).pendingTrades =
          (routeMessage message discordUserId deps nowMs s).2.pendingTrades from rfl, hp]
      exact h
    · rw [show (applyOp s (.route message discordUserId deps nowMs)).pendingTrades =
          (routeMessage message discordUserId deps nowMs s).2.pendingTrades from rfl, hp]
      rw [mapGet_set_ne s.pendingTrades deps.freshConfirmId confirmId e
        (fun hh => hne hh.symm)]
      exact h
  | execTrade trader confirmId2 nowMs =>
    rcases exec_pending_trades trader confirmId2 nowMs s with hp | hp
    · rw [show (applyOp s (.execTrade trader confirmId2 nowMs)).pendingTrades =
          (executePendingTrade trader confirmId2 nowMs s).2.1.pendingTrades from rfl, hp]
      exact h
    · rw [show (applyOp s (.execTrade trader confirmId2 nowMs)).pendingTrades =
          (executePendingTrade trader confirmId2 nowMs s).2.1.pendingTrades from rfl, hp]
      exact mapGet_erase_none _ _ _ h
  | cancel confirmId2 =>
    rcases cancel_pending_trades confirmId2 s with hp | hp
    · rw [show (applyOp s (.cancel confirmId2)).pendingTrades =
          (cancelPendingTrade confirmId2 s).2.pendingTrades from rfl, hp]
      exact h
    · rw [show (applyOp s (.cancel confirmId2)).pendingTrades =
          (cancelPendingTrade confirmId2 s).2.pendingTrades from rfl, hp]
      exact mapGet_erase_none _ _ _ h
  | sweep nowMs =>
    exact mapGet_purge_none _ _ _ h

theorem absent_preserved_trace (confirmId : String) :
    ∀ (ops : List RouterOp) (s : RouterState),
      mapGet s.pendingTrades confirmId = none →
      opsAvoidStoring confirmId ops = true →
      mapGet (runOps ops s).pendingTrades confirmId = none := by
  intro ops
  induction ops with
  | nil => intro s h _; exact h
  | cons op rest ih =>
    intro s h havoid
    simp only [opsAvoidStoring, List.all_cons, Bool.and_eq_true] at havoid
    exact ih (applyOp s op)
      (absent_preserved_op confirmId s op h (by simp [opsAvoidStoring, havoid.1]))
      (by simp [opsAvoidStoring, havoid.2])

/-- C3: at most one claiming operation succeeds per confirmation id — a
successful (non-null) `executePendingTrade` or a successful
`cancelPendingTrade` removes the id; on an absent id (including one
never stored) `executePendingTrade` returns null and
`cancelPendingTrade` false, both leaving the state unchanged; and
absence persists across any further operations that do not mint that
id, so every subsequent execute/cancel observes the id as consumed. -/
theorem confirm_id_single_claim (trader : TradeRequest → TradeResult) (confirmId : String)
    (nowMs : Nat) (s : RouterState) :
    (∀ r s' inv, executePendingTrade trader confirmId nowMs s = (some r, s', inv) →
      mapGet s'.pendingTrades confirmId = none)
    ∧ (∀ s', cancelPendingTrade confirmId s = (true, s') →
      mapGet s'.pendingTrades confirmId = none)
    ∧ (mapGet s.pendingTrades confirmId = none →
      executePendingTrade trader confirmId nowMs s = (none, s, false)
      ∧ cancelPendingTrade confirmId s = (false, s))
    ∧ (∀ ops : List RouterOp, mapGet s.pendingTrades confirmId = none →
      opsAvoidStoring confirmId ops = true →
      (executePendingTrade trader confirmId nowMs (runOps ops s)).1 = none
      ∧ (cancelPendingTrade confirmId (runOps ops s)).1 = false) := by
  refine ⟨?_, ?_, ?_, ?_⟩
  · intro r s' inv h
    have h1 : (executePendingTrade trader confirmId nowMs s).1.isSome = true := by
      rw [h]; rfl
    have h2 := exec_some_erases trader confirmId nowMs s h1
    rw [h] at h2
    rw [show ((some r : Option String), s', inv).2.1 = s' from rfl] at h2
    rw [h2]
    exact mapGet_erase_self _ _
  · intro s' h
    unfold cancelPendingTrade at h
    split at h
    · cases h
      exact mapGet_erase_self _ _
    · simp at h
  · intro h
    constructor
    · unfold executePendingTrade
      rw [h]
    · unfold cancelPendingTrade
      rw [h]
      simp
  · intro ops h havoid
    have habs := absent_preserved_trace confirmId ops s h havoid
    constructor
    · unfold executePendingTrade
      rw [habs]
    · unfold cancelPendingTrade
      rw [habs]
      simp

/-- C3 witness: on an id never stored, execute and cancel fail after a
trace of foreign operations. -/
theorem confirm_id_single_claim_witness :
    (executePendingTrade traderOkT "zz" 5
        (runOps [RouterOp.cancel "zz", RouterOp.sweep 99] RouterState.initial)).1 = none
    ∧ (cancelPendingTrade "zz"
        (runOps [RouterOp.cancel "zz", RouterOp.sweep 99] RouterState.initial)).1 = false :=
  (confirm_id_single_claim traderOkT "zz" 5 RouterState.initial).2.2.2
    [RouterOp.cancel "zz", RouterOp.sweep 99] (by decide) (by decide)

/-- C10: `cancelPendingTrade` performs no expiry check — any stored
entry, with any expiry timestamp (including one already past), is
deleted with result `true`; an absent id yields `false` and an
unchanged state. -/
theorem cancelPendingTrade_no_expiry_check (confirmId : String) (s : RouterState) :
    (∀ e : PendingEntry, mapGet s.pendingTrades confirmId = some e →
      cancelPendingTrade confirmId s =
        (true, { s with pendingTrades := mapErase s.pendingTrades confirmId }))
    ∧ (mapGet s.pendingTrades confirmId = none →
        cancelPendingTrade confirmId s = (false, s)) := by
  constructor
  · intro e he
    simp [cancelPendingTrade, he]
  · intro he
    simp [cancelPendingTrade, he]

/-- C10 witness: an entry whose 5-minute expiry passed long ago is still
cancelled successfully. -/
theorem cancelPendingTrade_no_expiry_check_witness :
    cancelPendingTrade "c0" expiredState =
      (true, { expiredState with pendingTrades := mapErase expiredState.pendingTrades "c0" }) :=
  (cancelPendingTrade_no_expiry_check "c0" expiredState).1 entryExpired (by decide)

/-! ### Sell frame property -/

theorem sell_gate (uid : String) (a : Int) (nowMs : Nat) (L : Ledger) :
    spendGateCheck uid TradeAction.sell a nowMs L = (true, L) := by
  simp [spendGateCheck]

theorem handleWrite_sell_ledger (m uid : String) (deps : WriteDeps) (nowMs : Nat)
    (s : RouterState) (pb : PlaceBet)
    (hp : deps.parseResult = some (.placeBet pb)) (hact : pb.action = some .sell) :
    (handleWrite m uid deps nowMs s).2.ledger = s.ledger := by
  simp only [handleWrite, hp, hact, Option.getD_some, sell_gate]
  repeat' split
  all_goals first | contradiction | rfl

theorem handleWrite_sell_ledger_indep (m uid : String) (deps : WriteDeps) (nowMs : Nat)
    (p : PendingMap) (L1 L2 : Ledger) (pb : PlaceBet)
    (hp : deps.parseResult = some (.placeBet pb)) (hact : pb.action = some .sell) :
    (handleWrite m uid deps nowMs ⟨p, L1⟩).1 = (handleWrite m uid deps nowMs ⟨p, L2⟩).1
    ∧ (handleWrite m uid deps nowMs ⟨p, L1⟩).2.pendingTrades =
        (handleWrite m uid deps nowMs ⟨p, L2⟩).2.pendingTrades := by
  simp only [handleWrite, hp, hact, Option.getD_some, sell_gate]
  repeat' split
  all_goals first | contradiction | exact ⟨rfl, rfl⟩

theorem exec_sell_ledger (trader : TradeRequest → TradeResult) (confirmId : String)
    (nowMs : Nat) (s : RouterState) (e : PendingEntry)
    (he : mapGet s.pendingTrades confirmId = some e)
    (hsell : e.actionForSpend = .sell) :
    (executePendingTrade trader confirmId nowMs s).2.1.ledger = s.ledger := by
  simp only [executePendingTrade, he, hsell]
  repeat' split
  all_goals first | rfl | contradiction | simp_all

/-! ### Pending-value counting lemmas (for the spend invariant) -/

theorem valuesFiltered_length (p : PendingEntry → Bool) (m : PendingMap) :
    (valuesFiltered p m).length = (m.map (fun kv => kv.2)).countP p :=
  (List.countP_eq_length_filter _ _).symm

theorem values_mapSet_mem (m : PendingMap) (k : String) (e x : PendingEntry)
    (h : x ∈ (mapSet m k e).map (fun kv => kv.2)) :
    x = e ∨ x ∈ m.map (fun kv => kv.2) := by
  induction m with
  | nil => simp [mapSet] at h; exact Or.inl h
  | cons kv rest ih =>
    rcases kv with ⟨k', v⟩
    by_cases hk : k' = k
    · simp only [mapSet, if_pos hk, List.map_cons, List.mem_cons] at h
      rcases h with h | h
      · exact Or.inl h
      · exact Or.inr (by simp [h])
    · simp only [mapSet, if_neg hk, List.map_cons, List.mem_cons] at h
      rcases h with h | h
      · exact Or.inr (by simp [h])
      · rcases ih h with h' | h'
        · exact Or.inl h'
        · exact Or.inr (by simp [h'])

theorem countP_values_mapSet (p : PendingEntry → Bool) (m : PendingMap) (k : String)
    (e : PendingEntry) :
    ((mapSet m k e).map (fun kv => kv.2)).countP p ≤
      (m.map (fun kv => kv.2)).countP p + (if p e then 1 else 0) := by
  induction m with
  | nil =>
    simp only [mapSet, List.map_cons, List.map_nil, List.countP_cons, List.countP_nil]
    omega
  | cons kv rest ih =>
    rcases kv with ⟨k', v⟩
    by_cases hk : k' = k
    · simp only [mapSet, if_pos hk, List.map_cons, List.countP_cons]
      omega
    · simp only [mapSet, if_neg hk, List.map_cons, List.countP_cons]
      omega

theorem values_mapErase_mem (m : PendingMap) (k : String) (x : PendingEntry)
    (h : x ∈ (mapErase m k).map (fun kv => kv.2)) : x ∈ m.map (fun kv => kv.2) := by
  induction m with
  | nil => simp [mapErase] at h
  | cons kv rest ih =>
    rcases kv with ⟨k', v⟩
    by_cases hk : k' = k
    · simp only [mapErase, if_pos hk] at h
      exact by simp [ih h]
    · simp only [mapErase, if_neg hk, List.map_cons, List.mem_cons] at h
      rcases h with h | h
      · simp [h]
      · simp [ih h]

theorem countP_values_mapErase_le (p : PendingEntry → Bool) (m : PendingMap) (k : String) :
    ((mapErase m k).map (fun kv => kv.2)).countP p ≤ (m.map (fun kv => kv.2)).countP p := by
  induction m with
  | nil => simp [mapErase]
  | cons kv rest ih =>
    rcases kv with ⟨k', v⟩
    by_cases hk : k' = k
    · simp only [mapErase, if_pos hk, List.map_cons, List.countP_cons]
      omega
    · simp only [mapErase, if_neg hk, List.map_cons, List.countP_cons]
      omega

theorem countP_values_mapErase_get (p : PendingEntry → Bool) (m : PendingMap) (k : String)
    (e : PendingEntry) (hget : mapGet m k = some e) (hp : p e = true) :
    ((mapErase m k).map (fun kv => kv.2)).countP p + 1 ≤
      (m.map (fun kv => kv.2)).countP p := by
  induction m with
  | nil => simp [mapGet] at hget
  | cons kv rest ih =>
    rcases kv with ⟨k', v⟩
    by_cases hk : k' = k
    · have hv : v = e := by
        simpa [mapGet, hk] using hget
      have hle := countP_values_mapErase_le p rest k
      have hpe : (if p v = true then 1 else 0) = 1 := by simp [hv, hp]
      simp only [mapErase, if_pos hk, List.map_cons, List.countP_cons, hpe]
      omega
    · have hget' : mapGet rest k = some e := by
        simpa [mapGet, hk] using hget
      have := ih hget'
      simp only [mapErase, if_neg hk, List.map_cons, List.countP_cons]
      omega

theorem values_purge_mem (nowMs : Nat) (m : PendingMap) (x : PendingEntry)
    (h : x ∈ (purgeExpired nowMs m).map (fun kv => kv.2)) :
    x ∈ m.map (fun kv => kv.2) := by
  induction m with
  | nil => simp [purgeExpired] at h
  | cons kv rest ih =>
    rcases kv with ⟨k', v⟩
    by_cases hexp : (v.expiresAtMs < nowMs : Prop)
    · simp only [purgeExpired, if_pos hexp] at h
      exact by simp [ih h]
    · simp only [purgeExpired, if_neg hexp, List.map_cons, List.mem_cons] at h
      rcases h with h | h
      · simp [h]
      · simp [ih h]

theorem countP_values_purge_le (p : PendingEntry → Bool) (nowMs : Nat) (m : PendingMap) :
    ((purgeExpired nowMs m).map (fun kv => kv.2)).countP p ≤
      (m.map (fun kv => kv.2)).countP p := by
  induction m with
  | nil => simp [purgeExpired]
  | cons kv rest ih =>
    rcases kv with ⟨k', v⟩
    by_cases hexp : (v.expiresAtMs < nowMs : Prop)
    · simp only [purgeExpired, if_pos hexp, List.map_cons, List.countP_cons]
      omega
    · simp only [purgeExpired, if_neg hexp, List.map_cons, List.countP_cons]
      omega

theorem mapGet_mem_values (m : PendingMap) (k : String) (e : PendingEntry)
    (h : mapGet m k = some e) : e ∈ m.map (fun kv => kv.2) := by
  induction m with
  | nil => simp [mapGet] at h
  | cons kv rest ih =>
    rcases kv with ⟨k', v⟩
    by_cases hk : k' = k
    · have hv : v = e := by simpa [mapGet, hk] using h
      simp [hv]
    · have h' : mapGet rest k = some e := by simpa [mapGet, hk] using h
      simp [ih h']

theorem mem_buyEntries (u : String) (m : PendingMap) (e : PendingEntry) :
    e ∈ buyEntries u m ↔ e ∈ m.map (fun kv => kv.2) ∧ isBuyOf u e = true :=
  List.mem_filter

theorem exec_effect (trader : TradeRequest → TradeResult) (confirmId : String) (nowMs : Nat)
    (s : RouterState) :
    ((executePendingTrade trader confirmId nowMs s).2.1 = s)
    ∨ ((executePendingTrade trader confirmId nowMs s).2.1.pendingTrades =
          mapErase s.pendingTrades confirmId
        ∧ ((executePendingTrade trader confirmId nowMs s).2.1.ledger = s.ledger
          ∨ ∃ e, mapGet s.pendingTrades confirmId = some e
              ∧ e.actionForSpend = TradeAction.buy
              ∧ (executePendingTrade trader confirmId nowMs s).2.1.ledger =
                  recordSpend e.userId e.amountCents nowMs s.ledger)) := by
  simp only [executePendingTrade]
  split
  · exact Or.inl rfl
  next e heq =>
    split
    · exact Or.inr ⟨rfl, Or.inl rfl⟩
    · split
      next hcond =>
        have hbuy : e.actionForSpend = TradeAction.buy :=
          eq_of_beq ((Bool.and_eq_true _ _).mp hcond).2
        exact Or.inr ⟨rfl, Or.inr ⟨e, heq, hbuy, rfl⟩⟩
      next hcond => exact Or.inr ⟨rfl, Or.inl rfl⟩

/-! ### Spend-invariant preservation -/

theorem buyEntries_length (u : String) (m : PendingMap) :
    (buyEntries u m).length = (m.map (fun kv => kv.2)).countP (isBuyOf u) :=
  valuesFiltered_length _ _

theorem dayKey_mono {a b : Nat} (h : a ≤ b) : dayKey a ≤ dayKey b :=
  Nat.div_le_div_right h

theorem spendInv_mono (u : String) {tau tau' : Nat} (h : tau ≤ tau') {s : RouterState}
    (hinv : SpendInv u tau s) : SpendInv u tau' s := by
  obtain ⟨hbound, hfut, hlen, hslack⟩ := hinv
  have hdk : dayKey tau ≤ dayKey tau' := dayKey_mono h
  refine ⟨hbound, ?_, hlen, ?_⟩
  · intro d hd
    exact hfut d (by omega)
  · intro e he
    obtain ⟨hpos, hday, hfit⟩ := hslack e he
    exact ⟨hpos, by omega, hfit⟩

theorem spendInv_route (u : String) (hex : isOwnerExempt u = false)
    (msg uid : String) (deps : WriteDeps) (nowMs tau : Nat) (s : RouterState)
    (hinv : SpendInv u tau s) (hclk : tau ≤ nowMs)
    (hsafe : uid = u → buyEntries u s.pendingTrades = []) :
    SpendInv u nowMs (routeMessage msg uid deps nowMs s).2 := by
  obtain ⟨hbound, hfut, hlen, hslack⟩ := hinv
  obtain ⟨hled, hpend⟩ := routeMessage_shape msg uid deps nowMs s
  have hdk : dayKey tau ≤ dayKey nowMs := dayKey_mono hclk
  have hbound' : ∀ d, 0 ≤ (routeMessage msg uid deps nowMs s).2.ledger u d ∧
      (routeMessage msg uid deps nowMs s).2.ledger u d ≤ DAILY_LIMIT_CENTS := by
    intro d
    rcases hled u d with h | h
    · rw [h]; exact hbound d
    · rw [h]
      exact ⟨le_refl 0, by norm_num [DAILY_LIMIT_CENTS]⟩
  have hfut' : ∀ d, dayKey nowMs < d →
      (routeMessage msg uid deps nowMs s).2.ledger u d = 0 := by
    intro d hd
    rcases hled u d with h | h
    · rw [h]; exact hfut d (by omega)
    · exact h
  have hamt : ∀ e' ∈ buyEntries u s.pendingTrades,
      e'.amountCents ≤ DAILY_LIMIT_CENTS := by
    intro e' he'
    obtain ⟨hpos, hday, hfit⟩ := hslack e' he'
    have h0 := hfut (dayKey tau + 1) (by omega)
    have h1 := hfit (dayKey tau + 1) (by omega)
    omega
  have hold_slack : ∀ e' ∈ buyEntries u s.pendingTrades,
      0 < e'.amountCents ∧ routedDayOf e' ≤ dayKey nowMs
      ∧ ∀ d, routedDayOf e' ≤ d →
          (routeMessage msg uid deps nowMs s).2.ledger u d + e'.amountCents
            ≤ DAILY_LIMIT_CENTS := by
    intro e' he'
    obtain ⟨hpos, hday, hfit⟩ := hslack e' he'
    refine ⟨hpos, by omega, ?_⟩
    intro d hd
    rcases hled u d with h | h
    · rw [h]; exact hfit d hd
    · rw [h]
      have := hamt e' he'
      omega
  rcases hpend with hp | ⟨e, hp, heu, hexp, hpos, hfit⟩
  · refine ⟨hbound', hfut', ?_, ?_⟩
    · rw [hp]; exact hlen
    · intro e' he'
      rw [hp] at he'
      exact hold_slack e' he'
  · by_cases hu : uid = u
    · subst hu
      have hempty := hsafe rfl
      have hlen0 : ((s.pendingTrades.map (fun kv => kv.2)).countP (isBuyOf uid)) = 0 := by
        rw [← buyEntries_length, hempty]
        rfl
      refine ⟨hbound', hfut', ?_, ?_⟩
      · rw [hp, buyEntries_length]
        have := countP_values_mapSet (isBuyOf uid) s.pendingTrades deps.freshConfirmId e
        have hite : (if isBuyOf uid e then 1 else 0) ≤ 1 := by split <;> omega
        omega
      · intro e' he'
        rw [hp] at he'
        have hm := (mem_buyEntries uid _ e').mp he'
        rcases values_mapSet_mem s.pendingTrades deps.freshConfirmId e e' hm.1 with rfl | hold
        · have hbuy : e'.actionForSpend = TradeAction.buy :=
            eq_of_beq ((Bool.and_eq_true _ _).mp hm.2).2
          have hday : routedDayOf e' = dayKey nowMs := by
            rw [routedDayOf, hexp]
            simp
          have hfit0 := hfit hbuy hex
          refine ⟨hpos, by omega, ?_⟩
          intro d hd
          rw [hday] at hd
          rcases Nat.lt_or_ge (dayKey nowMs) d with hlt | hge
          · rw [hfut' d hlt]
            have := (hbound' (dayKey nowMs)).1
            omega
          · have hdeq : d = dayKey nowMs := by omega
            rw [hdeq]
            exact hfit0
        · exfalso
          have : e' ∈ buyEntries uid s.pendingTrades :=
            (mem_buyEntries uid _ e').mpr ⟨hold, hm.2⟩
          rw [hempty] at this
          simp at this
    · have hpe : isBuyOf u e = false := by
        simp only [isBuyOf, heu, Bool.and_eq_false_iff]
        left
        simp [hu]
      refine ⟨hbound', hfut', ?_, ?_⟩
      · rw [hp, buyEntries_length]
        have hcnt := countP_values_mapSet (isBuyOf u) s.pendingTrades deps.freshConfirmId e
        have h0 : (if isBuyOf u e = true then 1 else 0) = 0 := by simp [hpe]
        rw [h0] at hcnt
        rw [buyEntries_length] at hlen
        omega
      · intro e' he'
        rw [hp] at he'
        have hm := (mem_buyEntries u _ e').mp he'
        rcases values_mapSet_mem s.pendingTrades deps.freshConfirmId e e' hm.1 with rfl | hold
        · rw [hm.2] at hpe
          exact absurd hpe (by simp)
        · exact hold_slack e' ((mem_buyEntries u _ e').mpr ⟨hold, hm.2⟩)

theorem spendInv_exec (u : String) (trader : TradeRequest → TradeResult) (confirmId : String)
    (nowMs tau : Nat) (s : RouterState) (hinv : SpendInv u tau s) (hclk : tau ≤ nowMs) :
    SpendInv u nowMs (executePendingTrade trader confirmId nowMs s).2.1 := by
  obtain ⟨hbound, hfut, hlen, hslack⟩ := spendInv_mono u hclk hinv
  rcases exec_effect trader confirmId nowMs s with h | ⟨hp, hl⟩
  · rw [h]; exact ⟨hbound, hfut, hlen, hslack⟩
  have herase_len : (buyEntries u (mapErase s.pendingTrades confirmId)).length ≤
      (buyEntries u s.pendingTrades).length := by
    rw [buyEntries_length, buyEntries_length]
    exact countP_values_mapErase_le _ _ _
  have herase_mem : ∀ e', e' ∈ buyEntries u (mapErase s.pendingTrades confirmId) →
      e' ∈ buyEntries u s.pendingTrades := by
    intro e' he'
    have hm := (mem_buyEntries u _ e').mp he'
    exact (mem_buyEntries u _ e').mpr ⟨values_mapErase_mem _ _ _ hm.1, hm.2⟩
  rcases hl with hl | ⟨e, hget, hbuy, hl⟩
  · refine ⟨?_, ?_, ?_, ?_⟩
    · intro d; rw [hl]; exact hbound d
    · intro d hd; rw [hl]; exact hfut d hd
    · rw [hp]; omega
    · intro e' he'
      rw [hp] at he'
      have he'' := herase_mem e' he'
      obtain ⟨hpos, hday, hfit⟩ := hslack e' he''
      refine ⟨hpos, hday, ?_⟩
      intro d hd
      rw [hl]
      exact hfit d hd
  · by_cases hu : e.userId = u
    · have hmm : e ∈ buyEntries u s.pendingTrades :=
        (mem_buyEntries u _ e).mpr
          ⟨mapGet_mem_values _ _ _ hget, by simp [isBuyOf, hu, hbuy]⟩
      obtain ⟨hpos, hday, hfit⟩ := hslack e hmm
      have hcnt := countP_values_mapErase_get (isBuyOf u) s.pendingTrades confirmId e hget
        (by simp [isBuyOf, hu, hbuy])
      rw [buyEntries_length] at hlen
      have hempty : buyEntries u (mapErase s.pendingTrades confirmId) = [] := by
        apply List.length_eq_zero.mp
        rw [buyEntries_length]
        omega
      have hrec : ∀ d, (executePendingTrade trader confirmId nowMs s).2.1.ledger u d =
          if d = dayKey nowMs then s.ledger u (dayKey nowMs) + e.amountCents
          else s.ledger u d := by
        intro d
        rw [hl]
        by_cases hd : d = dayKey nowMs
        · rw [if_pos hd]
          simp [recordSpend, memRecordSpend, hu, hd]
        · rw [if_neg hd]
          simp [recordSpend, memRecordSpend, hd]
      refine ⟨?_, ?_, ?_, ?_⟩
      · intro d
        rw [hrec d]
        by_cases hd : d = dayKey nowMs
        · rw [if_pos hd]
          have h1 := hfit (dayKey nowMs) hday
          have h3 := (hbound (dayKey nowMs)).1
          exact ⟨by omega, by omega⟩
        · rw [if_neg hd]; exact hbound d
      · intro d hd
        rw [hrec d, if_neg (by omega : ¬ d = dayKey nowMs)]
        exact hfut d hd
      · rw [hp, hempty]
        simp
      · intro e' he'
        rw [hp, hempty] at he'
        simp at he'
    · have hlu : ∀ d, (executePendingTrade trader confirmId nowMs s).2.1.ledger u d =
          s.ledger u d := by
        intro d
        rw [hl]
        simp only [recordSpend, memRecordSpend]
        rw [if_neg (fun hc => hu hc.1.symm)]
      refine ⟨?_, ?_, ?_, ?_⟩
      · intro d; rw [hlu d]; exact hbound d
      · intro d hd; rw [hlu d]; exact hfut d hd
      · rw [hp]; omega
      · intro e' he'
        rw [hp] at he'
        have he'' := herase_mem e' he'
        obtain ⟨hpos, hday, hfit⟩ := hslack e' he''
        refine ⟨hpos, hday, ?_⟩
        intro d hd
        rw [hlu]
        exact hfit d hd

theorem cancel_ledger (confirmId : String) (s : RouterState) :
    (cancelPendingTrade confirmId s).2.ledger = s.ledger := by
  unfold cancelPendingTrade
  split <;> rfl

theorem spendInv_cancel (u : String) (confirmId : String) (tau : Nat) (s : RouterState)
    (hinv : SpendInv u tau s) : SpendInv u tau (cancelPendingTrade confirmId s).2 := by
  obtain ⟨hbound, hfut, hlen, hslack⟩ := hinv
  refine ⟨?_, ?_, ?_, ?_⟩
  · intro d; rw [cancel_ledger]; exact hbound d
  · intro d hd; rw [cancel_ledger]; exact hfut d hd
  · rcases cancel_pending_trades confirmId s with hp | hp <;> rw [hp]
    · exact hlen
    · rw [buyEntries_length] at hlen ⊢
      have := countP_values_mapErase_le (isBuyOf u) s.pendingTrades confirmId
      omega
  · intro e' he'
    have he'' : e' ∈ buyEntries u s.pendingTrades := by
      rcases cancel_pending_trades confirmId s with hp | hp <;> rw [hp] at he'
      · exact he'
      · have hm := (mem_buyEntries u _ e').mp he'
        exact (mem_buyEntries u _ e').mpr ⟨values_mapErase_mem _ _ _ hm.1, hm.2⟩
    obtain ⟨hpos, hday, hfit⟩ := hslack e' he''
    refine ⟨hpos, hday, ?_⟩
    intro d hd
    rw [cancel_ledger]
    exact hfit d hd

theorem spendInv_sweep (u : String) (nowMs tau : Nat) (s : RouterState)
    (hinv : SpendInv u tau s) (hclk : tau ≤ nowMs) :
    SpendInv u nowMs (sweepExpiredPending nowMs s) := by
  obtain ⟨hbound, hfut, hlen, hslack⟩ := spendInv_mono u hclk hinv
  refine ⟨hbound, hfut, ?_, ?_⟩
  · show (buyEntries u (purgeExpired nowMs s.pendingTrades)).length ≤ 1
    rw [buyEntries_length] at hlen ⊢
    have := countP_values_purge_le (isBuyOf u) nowMs s.pendingTrades
    omega
  · intro e' he'
    have hm := (mem_buyEntries u _ e').mp he'
    have he'' : e' ∈ buyEntries u s.pendingTrades :=
      (mem_buyEntries u _ e').mpr ⟨values_purge_mem _ _ _ hm.1, hm.2⟩
    exact hslack e' he''

theorem spendInv_step (u : String) (hex : isOwnerExempt u = false) (tau : Nat)
    (s : RouterState) (op : RouterOp) (hinv : SpendInv u tau s)
    (hclk : opClockLeB tau op = true) (hsafe : stepSafeB u s op = true) :
    SpendInv u (opClockAfter tau op) (applyOp s op) := by
  cases op with
  | route msg uid deps nowMs =>
    simp only [opClockLeB, decide_eq_true_eq] at hclk
    exact spendInv_route u hex msg uid deps nowMs tau s hinv hclk
      (of_decide_eq_true (by simpa [stepSafeB] using hsafe))
  | execTrade trader confirmId nowMs =>
    simp only [opClockLeB, decide_eq_true_eq] at hclk
    exact spendInv_exec u trader confirmId nowMs tau s hinv hclk
  | cancel confirmId => exact spendInv_cancel u confirmId tau s hinv
  | sweep nowMs =>
    simp only [opClockLeB, decide_eq_true_eq] at hclk
    exact spendInv_sweep u nowMs tau s hinv hclk

theorem spendInv_trace (u : String) (hex : isOwnerExempt u = false) :
    ∀ (ops : List RouterOp) (tau : Nat) (s : RouterState), SpendInv u tau s →
      safeTraceB u tau s ops = true →
      SpendInv u (ops.foldl opClockAfter tau) (runOps ops s) := by
  intro ops
  induction ops with
  | nil => intro tau s h _; exact h
  | cons op rest ih =>
    intro tau s h hsafe
    simp only [safeTraceB, Bool.and_eq_true] at hsafe
    exact ih (opClockAfter tau op) (applyOp s op)
      (spendInv_step u hex tau s op h hsafe.1.1 hsafe.1.2) hsafe.2

theorem spendInv_initial (u : String) : SpendInv u 0 RouterState.initial := by
  refine ⟨?_, ?_, ?_, ?_⟩
  · intro d
    exact ⟨le_refl 0, by norm_num [RouterState.initial, Ledger.empty, DAILY_LIMIT_CENTS]⟩
  · intro d _
    rfl
  · simp [RouterState.initial, buyEntries, valuesFiltered]
  · intro e' he'
    simp [RouterState.initial, buyEntries, valuesFiltered] at he'

/-- C1 counterexample: two $5.00 buys by the non-exempt user `u1` are
routed while the counter is $0 (each passes `canSpend`), then both
pending trades execute and record — `getSpentToday` observes 1000
cents, twice the 500-cent ceiling. -/
theorem daily_ceiling_violable_with_overlapping_confirms :
    isOwnerExempt "u1" = false
    ∧ DAILY_LIMIT_CENTS = 500
    ∧ (getSpentToday "u1" 5000
        (runOps overlappingBuysOps RouterState.initial).ledger).1 = 1000 := by
  refine ⟨by decide, rfl, by decide⟩

/-- C1 (amended): for a non-exempt user who routes a new message only
while no buy confirmation of theirs is pending, and under the monotone
system clock (successive `Date.now()` readings never decrease — an
environmental fact of the real runtime), the recorded daily spend total
(as observed via `getSpentToday`, for every day and after any such
operation sequence, including buy confirmations that execute on a later
UTC day than they were routed) never exceeds the 500-cent ceiling. -/
theorem daily_ceiling_with_serialized_confirms (u : String) (ops : List RouterOp)
    (hex : isOwnerExempt u = false)
    (hsafe : safeTraceB u 0 RouterState.initial ops = true) :
    (∀ d, (runOps ops RouterState.initial).ledger u d ≤ DAILY_LIMIT_CENTS)
    ∧ ∀ nowMs, (getSpentToday u nowMs (runOps ops RouterState.initial).ledger).1 ≤
        DAILY_LIMIT_CENTS := by
  have h := spendInv_trace u hex ops 0 RouterState.initial (spendInv_initial u) hsafe
  refine ⟨fun d => (h.1 d).2, fun nowMs => ?_⟩
  have heq : (getSpentToday u nowMs (runOps ops RouterState.initial).ledger).1 =
      (runOps ops RouterState.initial).ledger u (dayKey nowMs) :=
    memGetSpent_fst u nowMs _
  rw [heq]
  exact (h.1 (dayKey nowMs)).2

/-- C1 witness: the serialized cross-midnight trace (a buy routed
before UTC midnight executing after midnight, then a new-day buy
attempt refused by the gate) respects the discipline and stays within
the ceiling on the new day. -/
theorem daily_ceiling_with_serialized_confirms_witness :
    safeTraceB "u1" 0 RouterState.initial crossMidnightOps = true
    ∧ (getSpentToday "u1" 86520000
        (runOps crossMidnightOps RouterState.initial).ledger).1 ≤ DAILY_LIMIT_CENTS :=
  ⟨by decide,
   (daily_ceiling_with_serialized_confirms "u1" crossMidnightOps (by decide)
      (by decide)).2 86520000⟩

/-! ### Fail-closed parsing claims -/

/-- C9: for a parsed SELL trade the spend ledger is never touched — the
routed message leaves every counter exactly unchanged, its reply and
stored confirmation do not depend on the ledger at all (a sell is
accepted regardless of prior same-day buy spend), and executing the
stored SELL confirmation never records spend. -/
theorem sell_never_touches_ledger (m uid : String) (deps : WriteDeps) (nowMs : Nat)
    (pb : PlaceBet) (hp : deps.parseResult = some (.placeBet pb))
    (hact : pb.action = some .sell) :
    (∀ s : RouterState, (routeMessage m uid deps nowMs s).2.ledger = s.ledger)
    ∧ (∀ (p : PendingMap) (L1 L2 : Ledger),
        (routeMessage m uid deps nowMs ⟨p, L1⟩).1 = (routeMessage m uid deps nowMs ⟨p, L2⟩).1
        ∧ (routeMessage m uid deps nowMs ⟨p, L1⟩).2.pendingTrades =
            (routeMessage m uid deps nowMs ⟨p, L2⟩).2.pendingTrades)
    ∧ (∀ (trader : TradeRequest → TradeResult) (confirmId : String) (s : RouterState)
        (e : PendingEntry), mapGet s.pendingTrades confirmId = some e →
        e.actionForSpend = .sell →
        (executePendingTrade trader confirmId nowMs s).2.1.ledger = s.ledger) := by
  refine ⟨?_, ?_, ?_⟩
  · intro s
    simp only [routeMessage]
    split
    · exact handleWrite_sell_ledger m uid deps nowMs s pb hp hact
    · split
      · rfl
      · exact handleWrite_sell_ledger m uid deps nowMs s pb hp hact
  · intro p L1 L2
    simp only [routeMessage]
    split
    · exact handleWrite_sell_ledger_indep m uid deps nowMs p L1 L2 pb hp hact
    · split
      · exact ⟨rfl, rfl⟩
      · exact handleWrite_sell_ledger_indep m uid deps nowMs p L1 L2 pb hp hact
  · intro trader confirmId s e he hsell
    exact exec_sell_ledger trader confirmId nowMs s e he hsell

/-- C9 witness: a $3.00 sell routed with $4.00 of prior same-day buy
spend leaves the counter at $4.00 and is still accepted. -/
theorem sell_never_touches_ledger_witness :
    (routeMessage "sell $3" "u1" depsSell 100 ⟨[], ledger400⟩).2.ledger = ledger400 :=
  (sell_never_touches_ledger "sell $3" "u1" depsSell 100 pbSell rfl rfl).1 ⟨[], ledger400⟩

/-- C4 counterexample: a confirmation stored at `t = 100` carries expiry
`100 + 5 min`, and `executePendingTrade` invoked exactly at that expiry
instant still executes (non-null result, executor invoked), because the
code checks `expiresAtMs < Date.now()` strictly. -/
theorem executePendingTrade_at_expiry_executes :
    (mapGet stateAfterOneBuy.pendingTrades "c1").map (fun e => e.expiresAtMs) =
      some (100 + PENDING_TTL_MS)
    ∧ (executePendingTrade traderOkT "c1" (100 + PENDING_TTL_MS) stateAfterOneBuy).1.isSome = true
    ∧ (executePendingTrade traderOkT "c1" (100 + PENDING_TTL_MS) stateAfterOneBuy).2.2 = true := by
  decide

/-- C4 (amended): strictly after the expiry instant — whether or not
the 2-minute sweep already removed the entry — `executePendingTrade`
returns null and never invokes the stored execution continuation (the
trade gateway is never called). -/
theorem executePendingTrade_after_expiry_null
    (trader : TradeRequest → TradeResult) (confirmId : String) (nowMs : Nat) (s : RouterState)
    (h : Option.all (fun e => decide (e.expiresAtMs < nowMs)) (mapGet s.pendingTrades confirmId)
          = true) :
    (executePendingTrade trader confirmId nowMs s).1 = none
    ∧ (executePendingTrade trader confirmId nowMs s).2.2 = false := by
  cases he : mapGet s.pendingTrades confirmId with
  | none => simp [executePendingTrade, he]
  | some e =>
    rw [he] at h
    simp only [Option.all] at h
    simp [executePendingTrade, he, of_decide_eq_true h]

/-- C4 witness: one millisecond after expiry the same confirmation
yields null without invoking the gateway. -/
theorem executePendingTrade_after_expiry_null_witness :
    (executePendingTrade traderOkT "c1" (100 + PENDING_TTL_MS + 1) stateAfterOneBuy).1 = none
    ∧ (executePendingTrade traderOkT "c1" (100 + PENDING_TTL_MS + 1) stateAfterOneBuy).2.2
        = false :=
  executePendingTrade_after_expiry_null traderOkT "c1" (100 + PENDING_TTL_MS + 1)
    stateAfterOneBuy (by decide)

theorem buildTradeRequest_idempotency_key_spec_witness :
    (buildTradeRequest ⟨"u1", "m1", .yes, some .buy, 500, none⟩ ⟨"u1", "acct"⟩
        ⟨"m1", "q", .active⟩ 100).idempotencyKey =
      (buildTradeRequest ⟨"u1", "m1", .yes, some .buy, 500, none⟩ ⟨"u1", "acct"⟩
        ⟨"m1", "q", .active⟩ 299999).idempotencyKey
    ∧ (buildTradeRequest ⟨"u1", "m1", .yes, some .buy, 500, none⟩ ⟨"u1", "acct"⟩
        ⟨"m1", "q", .active⟩ 100).idempotencyKey ≠
      (buildTradeRequest ⟨"u1", "m1", .yes, some .buy, 500, none⟩ ⟨"u1", "acct"⟩
        ⟨"m1", "q", .active⟩ 300000).idempotencyKey :=
  ⟨(buildTradeRequest_idempotency_key_spec _ _ _).2.1 100 299999 (by decide),
   (buildTradeRequest_idempotency_key_spec _ _ _).2.2 100 300000 (by decide)⟩

end Polybot
